import Mathlib

/-!
# Verification of the `VerifiableCredentialStore` bundle-graph manager

Shallow embedding of `src/lib/VerifiableCredentialStore.js` (and its `assert.js`
helper) into Lean 4.  JavaScript objects are modelled as structures whose
optional fields are `Option`s (`none` = the property is absent), JavaScript
arrays as `List`s, and the EDV document store as a `List Doc`.  The embedding
follows the source control flow statement by statement; conflict-driven
control flow (`InvalidStateError` / `DuplicateError` raised by a concurrent
writer) is modelled separately through outcome environments, while the store
model itself is deterministic (a single client, so a version/sequence check
can never fail; an update fails only when the target document is absent).
-/

namespace VcStore

/-- A JavaScript `Error`: the `name` discriminator plus the message. -/
structure JsError where
  name : String
  message : String
deriving DecidableEq, Repr

/-- `credential.issuer`: a URI string or an object carrying an optional `id`. -/
inductive IssuerVal where
  | str (s : String)
  | obj (id : Option String)
deriving DecidableEq, Repr

/-- The credential payload stored as `content` of an EDV document.  Only the
fields the store logic reads are modelled; `payload` stands for the opaque
remainder of the credential (two credentials are equal in the sense of
`canonicalize` iff these fields agree). -/
structure Credential where
  id : Option String
  issuer : Option IssuerVal
  payload : Nat
deriving DecidableEq, Repr

/-- The `meta` sidecar of an EDV document.  Every field is optional, exactly
as JavaScript object properties are; `none` means the property is absent. -/
structure Meta where
  issuer : Option IssuerVal := none
  displayable : Option Bool := none
  bundle : Option Bool := none
  bundledBy : Option (List String) := none
  dependent : Option Bool := none
deriving DecidableEq, Repr

/-- An EDV document: store handle `id`, credential `content`, and `meta`.
The deterministic store model omits the `sequence` version counter: with a
single writer the version check of `update` can never fail, so conflicts are
modelled separately (see the outcome environments for the retry loops). -/
structure Doc where
  id : Nat
  content : Credential
  meta : Meta
deriving DecidableEq, Repr

/-- The EDV store contents. -/
abbrev Store := List Doc

/-- JavaScript truthiness of a possibly-absent string (`undefined` and `""`
are falsy). -/
def strTruthy : Option String → Bool
  | none => false
  | some s => s ≠ ""

/-- JavaScript truthiness of a possibly-absent `meta.issuer` value (an object
is always truthy, a string is truthy iff nonempty). -/
def issuerTruthy : Option IssuerVal → Bool
  | none => false
  | some (.str s) => s ≠ ""
  | some (.obj _) => true

/-- Auxiliary for `dedupFirst`: drop elements already seen. -/
def dedupFirstGo (seen : List String) : List String → List String
  | [] => []
  | a :: rest =>
    if a ∈ seen then dedupFirstGo seen rest
    else a :: dedupFirstGo (seen ++ [a]) rest

/-- `new Set(l)` materialised back to an array: keeps the first occurrence of
every element, in order. -/
def dedupFirst (l : List String) : List String := dedupFirstGo [] l

/-- `edvClient.find({equals: {'content.id': id}})` followed by taking the
first returned document. -/
def findByContentId (s : Store) (cid : String) : Option Doc :=
  s.find? (fun d => d.content.id = some cid)

/-- Source `_union(a1, a2)`: if either array is absent return the other,
otherwise `new Set(a1)` extended with the elements of `a2`. -/
def _union (a1 a2 : Option (List String)) : Option (List String) :=
  match a1, a2 with
  | none, a2 => a2
  | a1, none => a1
  | some l1, some l2 => some (dedupFirst (l1 ++ l2))

/-- The `bundledBy` list of a meta with `none` read as the empty set. -/
def bbList (m : Meta) : List String := m.bundledBy.getD []

/-- Source `defaultMutator({doc, credential, meta})`: never overwrites the
existing `content` (a mismatch is only logged), copies every `meta` property
that is present except `bundledBy` and `dependent`, unions the `bundledBy`
sets, and deletes `dependent` only when the new meta sets it to `false`. -/
def defaultMutator (doc : Doc) (credential : Credential) (meta : Meta) : Doc :=
  -- the content comparison only logs `console.error`; it has no effect on
  -- the returned document, so the embedding elides it
  let _ := credential
  let newMeta : Meta := {
    issuer := match meta.issuer with
      | some v => some v
      | none => doc.meta.issuer
    displayable := match meta.displayable with
      | some v => some v
      | none => doc.meta.displayable
    bundle := match meta.bundle with
      | some v => some v
      | none => doc.meta.bundle
    bundledBy := doc.meta.bundledBy
    dependent := doc.meta.dependent
  }
  let newMeta :=
    match meta.bundledBy with
    | some l => { newMeta with bundledBy := _union doc.meta.bundledBy (some l) }
    | none => newMeta
  let newMeta :=
    if meta.dependent = some false then { newMeta with dependent := none }
    else newMeta
  { doc with meta := newMeta }

/-! ## Query translation (`convertVPRQuery` / `_convertQueryByExample`) -/

/-- A JavaScript value that may be a single item or an array of items. -/
inductive OneOrMany (α : Type) where
  | one (a : α)
  | many (l : List α)
deriving DecidableEq, Repr

/-- A `trustedIssuer` entry of a credential query. -/
structure TrustedIssuer where
  id : Option String := none
deriving DecidableEq, Repr

/-- The `example` object of a credential query; only `type` is read. -/
structure QueryExample where
  type : Option (OneOrMany String) := none
deriving DecidableEq, Repr

/-- One entry of `credentialQuery`. -/
structure CredQuery where
  «example» : Option QueryExample := none
  trustedIssuer : Option (OneOrMany TrustedIssuer) := none
deriving DecidableEq, Repr

/-- A Verifiable Presentation Request query as read by `convertVPRQuery`. -/
structure VprQuery where
  type : Option String := none
  credentialQuery : Option (OneOrMany CredQuery) := none
deriving DecidableEq, Repr

/-- One local query term produced by the translation. -/
structure LocalQuery where
  type : String
  issuer : Option String := none
deriving DecidableEq, Repr

/-- Normalize a single-or-array value to an array, with a default for absence
(source: `Array.isArray(x) ? x : [x]`). -/
def normalizeMany {α : Type} (dflt : List α) : Option (OneOrMany α) → List α
  | none => dflt
  | some (.one a) => [a]
  | some (.many l) => l

/-- Map the `trustedIssuers` to their ids, failing with `NotSupportedError`
on the first entry whose `id` is not truthy (source lines 738-748). -/
def issuerIds : List TrustedIssuer → Except JsError (List String)
  | [] => .ok []
  | t :: rest =>
    match t.id with
    | some i =>
      if i ≠ "" then (issuerIds rest).map (i :: ·)
      else .error ⟨"NotSupportedError",
        "\"credentialQuery.trustedIssuer\" without an \"id\" is not supported."⟩
    | none => .error ⟨"NotSupportedError",
        "\"credentialQuery.trustedIssuer\" without an \"id\" is not supported."⟩

/-- Cross product of types and issuers (source lines 750-758). -/
def crossQueries (types issuers : List String) : List LocalQuery :=
  types.flatMap (fun t =>
    if issuers = [] then [⟨t, none⟩]
    else issuers.map (fun i => ⟨t, some i⟩))

/-- Translate one `credentialQuery` entry. -/
def convertOneQuery (q : CredQuery) : Except JsError (List LocalQuery) :=
  match q.«example» with
  | none => .error ⟨"TypeError", "\"credentialQuery.example\" must be an object."⟩
  | some ex =>
    match ex.type with
    | none => .error ⟨"Error",
        "\"credentialQuery.example\" without \"type\" is not supported."⟩
    | some t =>
      let types := normalizeMany [] (some t)
      match issuerIds (normalizeMany [] q.trustedIssuer) with
      | .error e => .error e
      | .ok issuers => .ok (crossQueries types issuers)

/-- Source `_convertQueryByExample({credentialQuery})`. -/
def _convertQueryByExample (credentialQuery : Option (OneOrMany CredQuery)) :
    Except JsError (List (List LocalQuery)) :=
  match credentialQuery with
  | none => .error ⟨"TypeError",
      "\"credentialQuery\" must be an array of objects or an object."⟩
  | some cq =>
    let queries := normalizeMany [] (some cq)
    queries.foldr (fun q acc =>
      match convertOneQuery q, acc with
      | .error e, _ => .error e
      | .ok _, .error e => .error e
      | .ok l, .ok ls => .ok (l :: ls)) (.ok [])

/-- Source `convertVPRQuery({vprQuery})`: only `QueryByExample` is supported;
the unsupported-type error is a plain `Error` (no `name` is assigned, so its
`name` is the default `"Error"`). -/
def convertVPRQuery (vprQuery : VprQuery) : Except JsError (List (List LocalQuery)) :=
  if vprQuery.type = some "QueryByExample" then
    _convertQueryByExample vprQuery.credentialQuery
  else
    .error ⟨"Error", "Unsupported query type: " ++
      (vprQuery.type.getD "undefined")⟩

/-! ## Bundle closure load (`_getBundle`) -/

/-- `find({query})` where `query` is the disjunction of `{bundledBy: id}`
entries for the ids in `frontier`: every store document whose
`meta.bundledBy` contains one of the frontier ids, each document once, in
store order. -/
def queryBundledByAny (s : Store) (frontier : List String) : List Doc :=
  s.filter (fun d => frontier.any (fun i => i ∈ bbList d.meta))

/-- State of the breadth-first traversal in `_getBundle`:
`retrieved` is the `retrievedDocs` map (insertion order, keyed by `doc.id`),
`keys` the keys of the `bundles` map (the root id first), `frontier` the
`bundleIds` to query next. -/
structure BfsState where
  retrieved : List Doc
  keys : List String
  frontier : List String
deriving Repr

/-- Second half of the `for(const doc of docs)` loop of `_getBundle` (source
lines 569-581): if the document is itself a bundle whose id has no bundle
node yet, create the (initially empty) node and extend the next frontier. -/
def bfsAddKeys (st : BfsState) (d : Doc) : BfsState :=
  if strTruthy d.content.id ∧ d.meta.bundle = some true then
    match d.content.id with
    | some cid =>
      if cid ∈ st.keys then st
      else { st with keys := st.keys ++ [cid], frontier := st.frontier ++ [cid] }
    | none => st
  else st

/-- Body of the `for(const doc of docs)` loop of `_getBundle` (source lines
560-582): skip the root credential and already-retrieved documents, record
the document, then create its bundle node if needed. -/
def bfsAddDoc (rootId : String) (st : BfsState) (d : Doc) : BfsState :=
  if d.content.id = some rootId ∨ st.retrieved.any (fun r => r.id = d.id) then st
  else
    bfsAddKeys { st with retrieved := st.retrieved ++ [d] } d

/-- One iteration of the `while(bundleIds.length > 0)` loop: query all
documents bundled by the current frontier and fold them in. -/
def bfsRound (s : Store) (rootId : String) (st : BfsState) : BfsState :=
  let docs := queryBundledByAny s st.frontier
  (docs.foldl (bfsAddDoc rootId) { st with frontier := [] })

/-- The `while` loop of `_getBundle` phase 1, with explicit fuel.  Each
iteration that continues strictly grows `keys` (bounded by the number of
distinct content ids in the store), so `s.length + 1` rounds always reach the
empty frontier. -/
def bfsLoop (s : Store) (rootId : String) : Nat → BfsState → BfsState
  | 0, st => st
  | fuel + 1, st =>
    if st.frontier = [] then st
    else bfsLoop s rootId fuel (bfsRound s rootId st)

/-- A content reference inside a bundle node: the document plus, when the
document is itself a bundle, the id of its (shared) sub-bundle node. -/
structure DocRef where
  doc : Doc
  sub : Option String
deriving DecidableEq, Repr

/-- The `bundles` map: association list from bundle id to its `contents`,
in insertion order. -/
abbrev BundleMap := List (String × List DocRef)

/-- Build the `ref` object for a retrieved document (source lines 589-593). -/
def buildRef (d : Doc) : DocRef :=
  { doc := d
    sub := if strTruthy d.content.id ∧ d.meta.bundle = some true then d.content.id
           else none }

/-- Append `ref` to the contents of bundle `pid` if that bundle node exists
(source lines 596-604: a bundling id outside the closure is skipped). -/
def bmAppend (bm : BundleMap) (pid : String) (ref : DocRef) : BundleMap :=
  bm.map (fun kv => if kv.1 = pid then (kv.1, kv.2 ++ [ref]) else kv)

/-- Phase 2 of `_getBundle` for one document: push its reference into every
bundle node whose id appears in its `bundledBy`. -/
def addRefs (bm : BundleMap) (d : Doc) : BundleMap :=
  (bbList d.meta).foldl (fun bm pid => bmAppend bm pid (buildRef d)) bm

/-- Source `_getBundle({id})`: returns the populated bundle map (the root
node first) and `allSubDocuments`. -/
def _getBundle (s : Store) (rootId : String) : BundleMap × List Doc :=
  let st := bfsLoop s rootId (s.length + 1)
    { retrieved := [], keys := [rootId], frontier := [rootId] }
  let allSubDocuments := st.retrieved
  let initBm : BundleMap := st.keys.map (fun k => (k, []))
  (allSubDocuments.foldl addRefs initBm, allSubDocuments)



/-! ## Cascade unlink/delete (`_deleteBundledDocs`) -/

/-- The `type` of a scheduled document operation. -/
inductive OpType where
  | update
  | delete
deriving DecidableEq, Repr

/-- An entry of the `operationMap`, keyed by the document (modelled by the
store handle `docId`, since `_getBundle` returns exactly one shared object
per EDV document id).  `contentId` is the document's `content.id` (never
mutated by the cascade) and `isBundle` records into which of the two op sets
the entry was filed on creation. -/
structure Op where
  docId : Nat
  contentId : Option String
  type : OpType
  before : List String
  isBundle : Bool
deriving DecidableEq, Repr

/-- State of the cascade traversal: the current (mutated) document objects,
the `operationMap` in insertion order, the `processedBundles` set and the
`next` worklist of bundle ids. -/
structure CState where
  docs : List Doc
  ops : List Op
  processed : List String
  next : List String
deriving Repr

/-- Look up the shared document object for a store handle. -/
def lookupDoc (docs : List Doc) (n : Nat) : Option Doc :=
  docs.find? (fun d => d.id = n)

/-- Write back a mutated document object. -/
def updateDocs (docs : List Doc) (d : Doc) : List Doc :=
  docs.map (fun e => if e.id = d.id then d else e)

/-- Look up the operation scheduled for a document. -/
def getOp (ops : List Op) (n : Nat) : Option Op :=
  ops.find? (fun o => o.docId = n)

/-- Replace the operation scheduled for `op.docId`. -/
def setOp (ops : List Op) (op : Op) : List Op :=
  ops.map (fun o => if o.docId = op.docId then op else o)

/-- `Set.add` on a JavaScript set materialised as a first-occurrence list. -/
def setAdd (l : List String) (x : String) : List String :=
  if x ∈ l then l else l ++ [x]

/-- The current state of the shared document object a content reference
points at (`_deleteBundledDocs` works on the objects `_getBundle` loaded). -/
def childDoc (st : CState) (ref : DocRef) : Doc :=
  (lookupDoc st.docs ref.doc.id).getD ref.doc

/-- `const set = new Set(doc.meta.bundledBy); set.delete(bundleId)`: the
parents that remain after unlinking `bundleId`. -/
def childRemaining (bundleId : String) (st : CState) (ref : DocRef) : List String :=
  (dedupFirst (bbList (childDoc st ref).meta)).filter (· ≠ bundleId)

/-- The child document after the unlink: `bundledBy` holds the remaining
parents, or is deleted when none remain (source lines 626-635). -/
def unlinkedDoc (bundleId : String) (st : CState) (ref : DocRef) : Doc :=
  let doc := childDoc st ref
  let remaining := childRemaining bundleId st ref
  { doc with meta := { doc.meta with
    bundledBy := if remaining ≠ [] then some remaining else none } }

/-- The operation scheduled for the child after this step: freshly created
as an update with `before = {bundleId}` when none exists, otherwise the
existing operation with `bundleId` added to its `before` set (source lines
637-651). -/
def scheduledOp (bundleId : String) (ops : List Op) (doc : Doc) : Op :=
  match getOp ops doc.id with
  | none => ⟨doc.id, doc.content.id, .update, [bundleId], doc.meta.bundle = some true⟩
  | some op0 => { op0 with before := setAdd op0.before bundleId }

/-- The operation map after scheduling: append the fresh operation or write
back the extended one. -/
def opsAfterSchedule (bundleId : String) (ops : List Op) (doc : Doc) : List Op :=
  match getOp ops doc.id with
  | none => ops ++ [scheduledOp bundleId ops doc]
  | some _ => setOp ops (scheduledOp bundleId ops doc)

/-- `op.type = 'delete'` (source line 661). -/
def markDelete (o : Op) : Op := { o with type := .delete }

/-- `processedBundles.has(doc.content.id)` (source line 665); `has` on an
absent id is false. -/
def processedGuard (processed : List String) (doc : Doc) : Bool :=
  match doc.content.id with
  | some c => processed.contains c
  | none => false

/-- Body of the `for(const {doc, bundle: subBundle} of contents)` loop of
`_deleteBundledDocs` (source lines 624-668): unlink `bundleId` from the
document, create or extend its operation, and when the document has no
remaining parents and is dependent, mark the operation as a delete and
recurse into an unprocessed sub-bundle. -/
def processChild (bundleId : String) (st : CState) (ref : DocRef) : CState :=
  let doc := unlinkedDoc bundleId st ref
  let remaining := childRemaining bundleId st ref
  let op := scheduledOp bundleId st.ops doc
  let st1 : CState := { st with
    docs := updateDocs st.docs doc
    ops := opsAfterSchedule bundleId st.ops doc }
  -- bundled by another VC or not dependent: do not delete, do not recurse
  if remaining ≠ [] ∨ ¬(doc.meta.dependent = some true) then st1
  else
    let st2 : CState := { st1 with ops := setOp st1.ops (markDelete op) }
    match ref.sub with
    | some sb =>
      -- if(subBundle && !processedBundles.has(doc.content.id)) next.push(..)
      if processedGuard st2.processed doc then st2
      else { st2 with next := st2.next ++ [sb] }
    | none => st2

/-- Processing of one bundle node from the worklist (source lines 622-669):
mark it processed and fold over its contents. -/
def processBundle (bm : BundleMap) (st : CState) (bid : String) : CState :=
  let st := { st with processed := setAdd st.processed bid }
  let contents := ((bm.find? (fun kv => kv.1 = bid)).map Prod.snd).getD []
  contents.foldl (processChild bid) st

/-- The `while(next.length > 0)` loop of `_deleteBundledDocs`, with explicit
fuel: every non-empty round adds at least one new id to `processed` (which is
bounded by the bundle keys), so `bm.length + 1` rounds suffice. -/
def cascadeLoop (bm : BundleMap) : Nat → CState → CState
  | 0, st => st
  | fuel + 1, st =>
    if st.next = [] then st
    else
      let cur := st.next
      let st := { st with next := [] }
      cascadeLoop bm fuel (cur.foldl (processBundle bm) st)

/-- The traversal phase of `_deleteBundledDocs`: starting from the root
bundle, produce the final operation map, with the shared document objects
already mutated. -/
def cascadeRun (bm : BundleMap) (allSub : List Doc) (rootId : String) : CState :=
  cascadeLoop bm (bm.length + 1)
    { docs := allSub, ops := [], processed := [], next := [rootId] }

/-! ## Bundle-op ordering (source lines 692-705) -/

/-- The comparator passed to `Array.prototype.sort` over the bundle ops:
`a` comes first when `a.before` contains `b`'s content id, and vice versa;
unrelated ops compare equal. -/
def bundleCmp (a b : Op) : Int :=
  if (match b.contentId with
      | some c => a.before.contains c
      | none => false) then -1
  else if (match a.contentId with
      | some c => b.before.contains c
      | none => false) then 1
  else 0

/-- The precedence relation the sort is meant to realise: `a` must run
before `b` when `a` was unlinked from the bundle rooted at `b` (that is,
`a.before` contains `b`'s content id). -/
def mustPrecede (a b : Op) : Bool :=
  match b.contentId with
  | some c => a.before.contains c
  | none => false

/-- Binary search for the insertion position used by TimSort's binary
insertion sort (the algorithm `Array.prototype.sort` applies to short arrays
in the V8 engine): find the leftmost position whose element compares
strictly greater than the pivot, probing only midpoints. -/
def binPos (cmp : Op → Op → Int) (e : Op) (p : List Op) : Nat :=
  go (p.length + 1) 0 p.length
where
  go : Nat → Nat → Nat → Nat
    | 0, lo, _ => lo
    | fuel + 1, lo, hi =>
      if lo < hi then
        let mid := (lo + hi) / 2
        if cmp e (p.getD mid e) < 0 then go fuel lo mid
        else go fuel (mid + 1) hi
      else lo

/-- Model of `Array.prototype.sort` for the bundle-op arrays: TimSort's
binary insertion sort (what V8 runs on arrays below the minimal run length),
inserting each element into the sorted prefix at the position found by
binary search.  NOTE: the comparator above is not transitive, so per
ECMAScript the result of `Array.prototype.sort` is implementation-defined;
this function reproduces what a TimSort-based engine computes. -/
def jsArraySort (cmp : Op → Op → Int) (l : List Op) : List Op :=
  l.foldl (fun p e => p.insertIdx (binPos cmp e p) e) []

/-- `[...bundleOps].sort(...)`: the serial execution order of the bundle
document operations. -/
def sortedBundleOps (ops : List Op) : List Op :=
  jsArraySort bundleCmp (ops.filter (fun o => o.isBundle))

/-! ## Store operations and operation execution (`_runOps`) -/

/-- A fallback document used only for `Option.getD` at join points the
JavaScript object graph makes unreachable (an operation always holds the
document object it was created from). -/
def dummyDoc (n : Nat) : Doc := ⟨n, ⟨none, none, 0⟩, {}⟩

/-- `edvClient.update({doc})` in the deterministic store model: fails with
`DuplicateError` when another document holds the same (truthy) `content.id`
(the unique index), otherwise replaces the stored document or creates it. -/
def edvUpdate (s : Store) (doc : Doc) : Except JsError Store :=
  if s.any (fun d =>
      d.id ≠ doc.id ∧ d.content.id = doc.content.id ∧ strTruthy doc.content.id) then
    .error ⟨"DuplicateError", "Duplicate error."⟩
  else if s.any (fun d => d.id = doc.id) then
    .ok (s.map (fun d => if d.id = doc.id then doc else d))
  else
    .ok (s ++ [doc])

/-- `edvClient.delete({doc})`: fails with `NotFoundError` when absent. -/
def edvDelete (s : Store) (doc : Doc) : Except JsError Store :=
  if s.any (fun d => d.id = doc.id) then
    .ok (s.filter (fun d => d.id ≠ doc.id))
  else
    .error ⟨"NotFoundError", "Document not found."⟩

/-- Run one scheduled operation; the document written is the shared (mutated)
object, i.e. the final cascade state of the document. -/
def applyOp (docs : List Doc) (s : Store) (op : Op) : Except JsError Store :=
  let d := (lookupDoc docs op.docId).getD (dummyDoc op.docId)
  match op.type with
  | .update => edvUpdate s d
  | .delete => edvDelete s d

/-- `_runOps` with `stopOnError: false` (the default): run every operation,
collecting the failures in order (the final `pAll` aggregate). -/
def runOpsCollect (docs : List Doc) : Store → List Op → Store × List JsError
  | s, [] => (s, [])
  | s, op :: rest =>
    match applyOp docs s op with
    | .ok s' => runOpsCollect docs s' rest
    | .error e =>
      let r := runOpsCollect docs s rest
      (r.1, e :: r.2)

/-- `_runOps` with `concurrency: 1, stopOnError: true`: run the operations in
order, stopping at (and propagating) the first failure. -/
def runOpsStop (docs : List Doc) : Store → List Op → (Except JsError Unit) × Store
  | s, [] => (.ok (), s)
  | s, op :: rest =>
    match applyOp docs s op with
    | .ok s' => runOpsStop docs s' rest
    | .error e => (.error e, s)

/-- Source `_deleteBundledDocs`: traverse the closure building the operation
map, run the non-bundle operations (best effort, collapsing an all-conflict
aggregate to its first error), then run the sorted bundle operations
serially.  `.ok` means the source's `{bundle}` result was returned. -/
def _deleteBundledDocs (s : Store) (bm : BundleMap) (allSub : List Doc)
    (rootId : String) : (Except JsError Unit) × Store :=
  let st := cascadeRun bm allSub rootId
  let nonBundleOps := st.ops.filter (fun o => !o.isBundle)
  let (s1, errs) := runOpsCollect st.docs s nonBundleOps
  if errs = [] then
    runOpsStop st.docs s1 (sortedBundleOps st.ops)
  else if errs.all (fun e => e.name = "InvalidStateError") then
    (.error (errs.getD 0 ⟨"Error", ""⟩), s1)
  else
    (.error ⟨"AggregateError", "Aggregate error."⟩, s1)

/-! ## Delete (`delete` / `_delete`) -/

/-- The result object of `_delete`: whether anything was deleted, the target
document when it was found, and whether the `bundle` field was set (the
source sets it exactly when `_deleteBundledDocs` completed). -/
structure DeleteResult where
  deleted : Bool
  doc : Option Doc
  bundleSet : Bool
deriving DecidableEq, Repr

/-- The tail of `_delete` (source lines 514-520): return if no document was
found, otherwise delete it, collapsing a `NotFoundError` to the best known
result (source lines 521-526). -/
def finishDelete (s : Store) (doc? : Option Doc) (bundleSet : Bool) :
    (Except JsError DeleteResult) × Store :=
  match doc? with
  | none => (.ok ⟨bundleSet, none, bundleSet⟩, s)
  | some d =>
    match edvDelete s d with
    | .ok s' => (.ok ⟨true, some d, bundleSet⟩, s')
    | .error _ => (.ok ⟨bundleSet, some d, bundleSet⟩, s)

/-- The body of `_delete` once the target document reference (from the
`docId` path) and the application id are known. -/
def deleteCore (s : Store) (doc0 : Option Doc) (id? : Option String)
    (deleteBundle force : Bool) : (Except JsError DeleteResult) × Store :=
  -- start fetching bundle (only when `id` is truthy; source line 474)
  let bundleRes? := if strTruthy id? then some (_getBundle s (id?.getD "")) else none
  -- fetch doc by `content.id` when not already fetched by `docId`
  let doc? := match doc0 with
    | some d => some d
    | none =>
      match id? with
      | some i => findByContentId s i
      | none => none
  -- if another VC bundles the VC to be deleted, then throw
  if !force && (match doc? with
      | some d => (match d.meta.bundledBy with
        | some l => decide (l ≠ [])
        | none => false)
      | none => false) then
    (.error ⟨"ConstraintError",
      "Cannot delete credential; all other credentials that bundle it " ++
      "must be deleted first."⟩, s)
  else
    match bundleRes? with
    | none =>
      -- `bundleResult` was never assigned: reading `.allSubDocuments` of
      -- `undefined` throws a TypeError (source line 501)
      (.error ⟨"TypeError", "Cannot read properties of undefined."⟩, s)
    | some (bm, allSub) =>
      if allSub ≠ [] then
        if deleteBundle then
          match _deleteBundledDocs s bm allSub (id?.getD "") with
          | (.ok _, s') => finishDelete s' doc? true
          | (.error e, s') =>
            if e.name = "NotFoundError" then (.ok ⟨false, doc?, false⟩, s')
            else (.error e, s')
        else if ¬force then
          (.error ⟨"ConstraintError",
            "Cannot delete credential; other credentials are bundled by it."⟩, s)
        else finishDelete s doc? false
      else finishDelete s doc? false

/-- Source `_delete({id, docId, deleteBundle, force})`. -/
def _delete (s : Store) (id? : Option String) (docId? : Option Nat)
    (deleteBundle force : Bool) : (Except JsError DeleteResult) × Store :=
  match docId? with
  | some n =>
    match s.find? (fun d => d.id = n) with
    | none => (.ok ⟨false, none, false⟩, s)  -- NotFoundError from get, caught
    | some d => deleteCore s (some d) d.content.id deleteBundle force
  | none => deleteCore s none id? deleteBundle force

/-- Source `delete({id, docId, deleteBundle, force})`: validate the options,
then loop on `InvalidStateError`.  The deterministic store gives every
attempt the same answer, so a conflicting attempt would loop forever;
`none` stands for that divergence (it is never produced here, because the
deterministic model never raises `InvalidStateError`).  `docId`, a string in
the source, is modelled by the `Nat` store handle (assumed truthy when
present). -/
def deleteVc (s : Store) (id? : Option String) (docId? : Option Nat)
    (deleteBundle force : Bool) : Option ((Except JsError DeleteResult) × Store) :=
  if ¬(strTruthy id? ∨ docId?.isSome) then
    some (.error ⟨"TypeError", "Either \"id\" or \"docId\" must be a string."⟩, s)
  else if strTruthy id? ∧ docId?.isSome then
    some (.error ⟨"Error", "Only one of \"id\" or \"docId\" may be given."⟩, s)
  else
    let r := _delete s id? docId? deleteBundle force
    match r.1 with
    | .error e => if e.name = "InvalidStateError" then none else some r
    | .ok _ => some r

/-! ## Insert / upsert (`insert`, `upsert`, `_addBundleContents`) -/

/-- A store write performed by the EDV client, for ordering statements
(`insertW` is `edvClient.insert`, `updateW` is a successful
`edvClient.update`). -/
inductive WriteEvent where
  | insertW (doc : Doc)
  | updateW (doc : Doc)
deriving DecidableEq, Repr

/-- One entry of `bundleContents`:
`{credential, meta, [bundleContents], [dependent]}`. -/
inductive BundleEntry where
  | mk (credential : Credential) (meta : Meta)
      (sub : Option (List BundleEntry)) (dependent : Option Bool)

/-- `assert.bundleContents` (from `assert.js`): for each entry, when nested
`bundleContents` are present (any array is truthy) validate them recursively
and require a truthy `credential.id`; the object/boolean shape checks are
enforced by the typing of the embedding. -/
def assertBundleContents : List BundleEntry → Except JsError Unit
  | [] => .ok ()
  | .mk c _ sub _ :: rest =>
    match sub with
    | some subl =>
      match assertBundleContents subl with
      | .error e => .error e
      | .ok () =>
        if strTruthy c.id then assertBundleContents rest
        else .error ⟨"Error", "\"credential.id\" must be a string to define a bundle."⟩
    | none => assertBundleContents rest

/-- Source `_getIssuer({credential})`: a falsy issuer throws; a string issuer
is returned; an object issuer must carry a string `id`, and `issuer.id ||
issuer` falls back to the object itself when the id is the empty string. -/
def _getIssuer (credential : Credential) : Except JsError IssuerVal :=
  match credential.issuer with
  | none => .error ⟨"Error", "\"credential.issuer\" must be an object or string."⟩
  | some (.str s) =>
    if s = "" then
      .error ⟨"Error", "\"credential.issuer\" must be an object or string."⟩
    else .ok (.str s)
  | some (.obj idv) =>
    match idv with
    | some i => if i = "" then .ok (.obj idv) else .ok (.str i)
    | none => .error ⟨"Error",
        "\"credential.issuer\" must be a URI or an object containing an " ++
        "\"id\" property."⟩

/-- `if(!meta.issuer) { meta.issuer = _getIssuer({credential}); }` -/
def resolveIssuer (credential : Credential) (meta : Meta) : Except JsError Meta :=
  if issuerTruthy meta.issuer then .ok meta
  else
    match _getIssuer credential with
    | .error e => .error e
    | .ok iss => .ok { meta with issuer := some iss }

/-- Result of a store-mutating call: the outcome, the store, the
`generateId` counter, and the writes performed so far in order. -/
structure WRes (α : Type) where
  res : Except JsError α
  store : Store
  gen : Nat
  trace : List WriteEvent

/-- The optimistic retry loop of `upsert` (source lines 309-379) over the
deterministic store: each iteration either creates a candidate new document
(with a fresh `generateId`) or mutates the fetched existing one, then tries
`edvClient.update`; a `DuplicateError` on a new document triggers a re-fetch
by `content.id`.  `fuel` is the remaining retries (10 at the top call);
exhausting it produces the source line 377 error.  Only successful writes
enter the trace. -/
def upsertLoop (credential : Credential) (meta : Meta) (useDefaultMutator : Bool) :
    Nat → Bool → Option Doc → Store → Nat → List WriteEvent → WRes Doc
  | 0, _, _, s, gen, trace =>
    { res := .error ⟨"Error", "Failed to upsert credential; too many retries."⟩
      store := s, gen := gen, trace := trace }
  | fuel + 1, isNew, prev?, s, gen, trace =>
    let doc :=
      if isNew then (⟨gen, credential, meta⟩ : Doc)
      else
        let prev := prev?.getD (dummyDoc 0)
        if useDefaultMutator then defaultMutator prev credential meta
        else { prev with content := credential, meta := meta }
    let gen' := if isNew then gen + 1 else gen
    match edvUpdate s doc with
    | .ok s' =>
      { res := .ok doc, store := s', gen := gen', trace := trace ++ [.updateW doc] }
    | .error e =>
      -- only `InvalidStateError`, or a `DuplicateError` on a new doc, are
      -- recoverable; the deterministic model only produces the latter
      if e.name = "InvalidStateError" ∨ (e.name = "DuplicateError" ∧ isNew) then
        match credential.id with
        | some cid =>
          match findByContentId s cid with
          | some d =>
            upsertLoop credential meta useDefaultMutator fuel false (some d) s gen' trace
          | none =>
            if isNew then { res := .error e, store := s, gen := gen', trace := trace }
            else upsertLoop credential meta useDefaultMutator fuel true none s gen' trace
        | none =>
          -- unreachable from `upsert` (`credential.id` was checked to be a
          -- string); a missing id makes the re-fetch find nothing
          if isNew then { res := .error e, store := s, gen := gen', trace := trace }
          else upsertLoop credential meta useDefaultMutator fuel true none s gen' trace
      else
        { res := .error e, store := s, gen := gen', trace := trace }

mutual

/-- Source `upsert({credential, meta, mutator, bundleContents})` over the
deterministic store.  `useDefaultMutator = true` models the default
`defaultMutator`; `false` models `mutator: false` (full overwrite); custom
mutator functions are outside the model. -/
def upsertStore (s : Store) (gen : Nat) (credential : Credential) (metaIn : Meta)
    (useDefaultMutator : Bool) (bundleContents : Option (List BundleEntry))
    (trace : List WriteEvent) : WRes Doc :=
  if credential.id = none then
    { res := .error ⟨"TypeError", "\"credential.id\" must be a string."⟩
      store := s, gen := gen, trace := trace }
  else
    match bundleContents with
    | some bc =>
      (match assertBundleContents bc with
      | .error e => { res := .error e, store := s, gen := gen, trace := trace }
      | .ok () => upsertCore s gen credential metaIn useDefaultMutator bc trace)
    | none => upsertCore s gen credential metaIn useDefaultMutator [] trace
termination_by 3 * sizeOf bundleContents + 5
decreasing_by all_goals simp_wf <;> omega

/-- The shared tail of `upsert` after validation: set the bundle flag,
default the issuer, run the retry loop, then add the (already validated)
bundle contents. -/
def upsertCore (s : Store) (gen : Nat) (credential : Credential) (metaIn : Meta)
    (useDefaultMutator : Bool) (bc : List BundleEntry)
    (trace : List WriteEvent) : WRes Doc :=
  let meta := if bc.isEmpty then metaIn else { metaIn with bundle := some true }
  match resolveIssuer credential meta with
  | .error e => { res := .error e, store := s, gen := gen, trace := trace }
  | .ok meta =>
    let r := upsertLoop credential meta useDefaultMutator 10 true none s gen trace
    match r.res, credential.id with
    | .ok doc, some cid =>
      if bc.isEmpty then { r with res := .ok doc }
      else
        let r2 := addBundleContents cid bc r.store r.gen r.trace
        { res := r2.res.map (fun _ => doc), store := r2.store,
          gen := r2.gen, trace := r2.trace }
    | res, _ => { r with res := res }
termination_by 3 * sizeOf bc + 1
decreasing_by all_goals simp_wf

/-- Source `_addBundleContents({bundleId, bundleContents})`: upsert every
entry with `dependent` defaulted to true and `bundleId` added to its
`bundledBy` set.  The source issues the upserts through `pAll` with
`stopOnError: true`; the model runs them in order, stopping at the first
failure. -/
def addBundleContents (bundleId : String) (entries : List BundleEntry)
    (s : Store) (gen : Nat) (trace : List WriteEvent) : WRes Unit :=
  match entries with
  | [] => { res := .ok (), store := s, gen := gen, trace := trace }
  | .mk cred emeta sub dep? :: rest =>
    let dep := dep?.getD true
    let m := if dep then { emeta with dependent := some true } else emeta
    let bb := dedupFirst (bbList m)
    let m := { m with bundledBy := some (setAdd bb bundleId) }
    let r := upsertStore s gen cred m true sub trace
    match r.res with
    | .error err =>
      { res := .error err, store := r.store, gen := r.gen, trace := r.trace }
    | .ok _ => addBundleContents bundleId rest r.store r.gen r.trace
termination_by 3 * sizeOf entries
decreasing_by all_goals simp_wf <;> omega

end

/-- Source `insert({credential, meta, bundleContents})`: validate, mark the
bundle flag, derive the issuer, `edvClient.insert` the top document first,
then add the bundle contents.  The trace starts at this call. -/
def insertVc (s : Store) (gen : Nat) (credential : Credential) (metaIn : Meta)
    (bundleContents : Option (List BundleEntry)) : WRes Doc :=
  let check : Except JsError Unit :=
    match bundleContents with
    | some bc =>
      (match assertBundleContents bc with
      | .error e => .error e
      | .ok () =>
        -- a VC without an ID cannot be a bundle
        if strTruthy credential.id then .ok ()
        else .error ⟨"Error", "\"credential.id\" must be a string to define a bundle."⟩)
    | none => .ok ()
  match check with
  | .error e => { res := .error e, store := s, gen := gen, trace := [] }
  | .ok () =>
    let isBundle : Bool := match bundleContents with
      | some bc => !bc.isEmpty
      | none => false
    let meta := if isBundle then { metaIn with bundle := some true } else metaIn
    match resolveIssuer credential meta with
    | .error e => { res := .error e, store := s, gen := gen, trace := [] }
    | .ok meta =>
      -- insert the credential first (before any bundle contents)
      let doc : Doc := ⟨gen, credential, meta⟩
      if s.any (fun d =>
          d.content.id = credential.id ∧ strTruthy credential.id) then
        { res := .error ⟨"DuplicateError", "Duplicate error."⟩
          store := s, gen := gen, trace := [] }
      else
        let s1 := s ++ [doc]
        match bundleContents, credential.id with
        | some bc, some cid =>
          if bc.isEmpty then
            { res := .ok doc, store := s1, gen := gen + 1, trace := [.insertW doc] }
          else
            let r := addBundleContents cid bc s1 (gen + 1) [.insertW doc]
            { res := r.res.map (fun _ => doc), store := r.store,
              gen := r.gen, trace := r.trace }
        | _, _ =>
          { res := .ok doc, store := s1, gen := gen + 1, trace := [.insertW doc] }

/-! ## Conflict environments: the retry loops under concurrent writers

The loops in `upsert` (source lines 309-379) and `delete` (source lines
421-431) exist solely to absorb conflicts raised by concurrent writers.
Their control flow is modelled against an abstract environment that fixes
the outcome the EDV client gives to the i-th attempt. -/

/-- Outcome the environment assigns to the `edvClient.update` call of one
`upsert` attempt. -/
inductive UpdOut where
  | success
  | invalidState
  | duplicate
  | otherError
deriving DecidableEq, Repr

/-- Outcome the environment assigns to the re-fetch (`this.get`) of one
`upsert` attempt. -/
inductive GetOut where
  | found
  | notFound
  | otherError
deriving DecidableEq, Repr

/-- Environment for the `upsert` retry loop: outcomes indexed by attempt. -/
structure UpsertEnv where
  upd : Nat → UpdOut
  get : Nat → GetOut

/-- Result of the `upsert` retry loop in the environment model. -/
inductive UpsertLoopRes where
  | ok
  | errUpdate
  | errGet
  | retryExhausted
deriving DecidableEq, Repr

/-- The `upsert` retry loop (source lines 309-379) against an outcome
environment: `fuel` is the remaining iterations of `for(let i = 0; i <
retries; ++i)` (`retries = 10`), `i` the attempt index, `isNew` the loop
flag.  Returns the outcome together with the number of
`edvClient.update` attempts performed. -/
def upsertAttempts (env : UpsertEnv) : Nat → Nat → Bool → UpsertLoopRes × Nat
  | 0, i, _ => (.retryExhausted, i)
  | fuel + 1, i, isNew =>
    match env.upd i with
    | .success => (.ok, i + 1)
    | u =>
      -- if the error was NOT a concurrent update nor a duplicate new doc,
      -- throw
      if ¬(u = .invalidState ∨ (u = .duplicate ∧ isNew)) then (.errUpdate, i + 1)
      else
        match env.get i with
        | .found => upsertAttempts env fuel (i + 1) false
        | .otherError => (.errGet, i + 1)
        | .notFound =>
          if isNew then (.errUpdate, i + 1)
          else upsertAttempts env fuel (i + 1) true

/-- The full `upsert` retry loop: 10 retries starting from `isNew = true`. -/
def upsertRun (env : UpsertEnv) : UpsertLoopRes × Nat :=
  upsertAttempts env 10 0 true

/-- Outcome the environment assigns to one `_delete` attempt inside the
`while(true)` loop of `delete`. -/
inductive DelOut where
  | returns
  | invalidState
  | otherError
deriving DecidableEq, Repr

/-- Result of observing the `delete` retry loop for finitely many steps. -/
inductive DelRes where
  | ok
  | err
deriving DecidableEq, Repr

/-- The `while(true)` loop of `delete` (source lines 421-431) against an
outcome environment, observed for `fuel` attempts: `none` means the loop was
still running after `fuel` attempts (the loop itself has no bound). -/
def deleteLoop (env : Nat → DelOut) : Nat → Nat → Option DelRes
  | 0, _ => none
  | fuel + 1, i =>
    match env i with
    | .returns => some .ok
    | .otherError => some .err
    | .invalidState => deleteLoop env fuel (i + 1)

/-- The environment in which every `_delete` attempt ends in a stale-version
conflict. -/
def allConflicts : Nat → DelOut := fun _ => .invalidState

/-! ## Concrete scenario used for the ordering analysis: deleting bundle `R`
in a store where `R` bundles the bundle credentials `x` and `y`, and `x`
bundles the bundle credential `z`; every child is dependent. -/

/-- Bundle root `R`. -/
def demoR : Doc := ⟨0, ⟨some "R", some (.str "iss"), 0⟩, { bundle := some true }⟩

/-- Bundle credential `x`, bundled by `R`. -/
def demoX : Doc := ⟨1, ⟨some "x", some (.str "iss"), 1⟩,
  { bundle := some true, bundledBy := some ["R"], dependent := some true }⟩

/-- Bundle credential `y`, bundled by `R`. -/
def demoY : Doc := ⟨2, ⟨some "y", some (.str "iss"), 2⟩,
  { bundle := some true, bundledBy := some ["R"], dependent := some true }⟩

/-- Bundle credential `z`, bundled by `x`. -/
def demoZ : Doc := ⟨3, ⟨some "z", some (.str "iss"), 3⟩,
  { bundle := some true, bundledBy := some ["x"], dependent := some true }⟩

/-- The demo store. -/
def demoStore : Store := [demoR, demoX, demoY, demoZ]

/-- The bundle operations the cascade for deleting `R` schedules, in final
execution order. -/
def demoSortedOps : List Op :=
  sortedBundleOps
    (cascadeRun (_getBundle demoStore "R").1 (_getBundle demoStore "R").2 "R").ops

/-- A placeholder operation for positional lookups. -/
def noOp : Op := ⟨0, none, .update, [], false⟩

/-- A VPR query with an unsupported type. -/
def fooVpr : VprQuery := { type := some "foo" }

/-- A `QueryByExample` VPR query whose trusted issuer entry has no id. -/
def noIdVpr : VprQuery :=
  { type := some "QueryByExample"
    credentialQuery := some (.one
      { «example» := some { type := some (.one "T") }
        trustedIssuer := some (.one ⟨none⟩) }) }

/-- The invariant of the `retrievedDocs` accumulator: every document comes
from the store, none is the root credential, and EDV document ids are
unique. -/
def RetInv (s : Store) (rootId : String) (retrieved : List Doc) : Prop :=
  (∀ d ∈ retrieved, d ∈ s) ∧
  (∀ d ∈ retrieved, d.content.id ≠ some rootId) ∧
  (retrieved.map (fun d => d.id)).Nodup

/-- At most one document per (truthy) credential id — the store invariant
the unique `content.id` index maintains. -/
def contentUnique (s : Store) : Prop :=
  ∀ a ∈ s, ∀ b ∈ s, a.content.id = b.content.id →
    strTruthy a.content.id = true → a = b

/-- Invariant of the cascade traversal state: scheduled operations target
closure documents with one operation per document, and the tracked document
objects are the closure documents with only their meta mutated. -/
def CascadeInv (allSub : List Doc) (st : CState) : Prop :=
  (∀ op ∈ st.ops, op.docId ∈ allSub.map (fun d => d.id)) ∧
  (st.ops.map (fun o => o.docId)).Nodup ∧
  (st.docs.map (fun d => d.id) = allSub.map (fun d => d.id)) ∧
  (∀ dd ∈ st.docs, ∃ a ∈ allSub, dd.id = a.id ∧ dd.content = a.content)

/-- Every content reference of the bundle map points at a closure
document. -/
def BmRefs (bm : BundleMap) (allSub : List Doc) : Prop :=
  ∀ kv ∈ bm, ∀ ref ∈ kv.2, ref.doc ∈ allSub

/-- A concrete cascade state: one child document bundled by `B` and `P`. -/
def c1Child : Doc := ⟨5, ⟨some "c", none, 0⟩,
  { bundledBy := some ["B", "P"], dependent := some true }⟩

/-- Cascade state holding only `c1Child`, with no scheduled operations. -/
def c1State : CState := { docs := [c1Child], ops := [], processed := [], next := [] }

/-- Content reference to `c1Child` (no sub-bundle). -/
def c1Ref : DocRef := ⟨c1Child, none⟩

/-- A credential without an id (and without an issuer). -/
def noIdCred : Credential := ⟨none, none, 0⟩

/-- A bundle parent for the C5 witness store. -/
def c5Parent : Doc := ⟨0, ⟨some "P", none, 0⟩, { bundle := some true }⟩

/-- A child bundled by `P` for the C5 witness store. -/
def c5Child : Doc := ⟨1, ⟨some "C", none, 1⟩,
  { bundledBy := some ["P"], dependent := some true }⟩

/-- The C5 witness store. -/
def c5Store : Store := [c5Parent, c5Child]

def c6P : Credential := ⟨some "P", some (.str "I"), 0⟩

def c6C : Credential := ⟨some "C", some (.str "I"), 1⟩

def c6mB : Meta := ⟨some (.str "I"), none, some true, none, none⟩

def c6mC : Meta := ⟨some (.str "I"), none, none, some ["P"], some true⟩

def c6Pdoc : Doc := ⟨0, c6P, c6mB⟩

def c6Cdoc : Doc := ⟨1, c6C, c6mC⟩

theorem mem_dedupFirstGo {x : String} :
    ∀ {l seen : List String}, x ∈ dedupFirstGo seen l ↔ (x ∈ l ∧ x ∉ seen) := by
  intro l
  induction l with
  | nil => intro seen; simp [dedupFirstGo]
  | cons a rest ih =>
    intro seen
    by_cases ha : a ∈ seen
    · simp only [dedupFirstGo, if_pos ha, ih, List.mem_cons]
      constructor
      · rintro ⟨h1, h2⟩; exact ⟨Or.inr h1, h2⟩
      · rintro ⟨h1 | h1, h2⟩
        · exact absurd (h1 ▸ ha) h2
        · exact ⟨h1, h2⟩
    · simp only [dedupFirstGo, if_neg ha, List.mem_cons, ih, List.mem_append,
        List.mem_singleton]
      constructor
      · rintro (rfl | ⟨h1, h2⟩)
        · exact ⟨Or.inl rfl, ha⟩
        · exact ⟨Or.inr h1, fun hx => h2 (Or.inl hx)⟩
      · rintro ⟨rfl | h1, h2⟩
        · exact Or.inl rfl
        · by_cases hx : x = a
          · exact Or.inl hx
          · exact Or.inr ⟨h1, by simp [h2, hx]⟩

theorem mem_dedupFirst {x : String} {l : List String} :
    x ∈ dedupFirst l ↔ x ∈ l := by
  simp [dedupFirst, mem_dedupFirstGo]

/-- C7: the default mutator preserves the existing content and unions the
`bundledBy` sets (as sets, i.e. up to membership). -/
theorem c7_defaultMutator_preserves_content_unions_bundledBy
    (doc : Doc) (credential : Credential) (meta : Meta) :
    (defaultMutator doc credential meta).content = doc.content ∧
    ∀ x, x ∈ bbList (defaultMutator doc credential meta).meta ↔
      (x ∈ bbList doc.meta ∨ x ∈ bbList meta) := by
  refine ⟨rfl, fun x => ?_⟩
  unfold defaultMutator bbList _union
  by_cases hdep : meta.dependent = some false <;>
    cases hm : meta.bundledBy <;>
      cases hd : doc.meta.bundledBy <;>
        simp [hm, hd, hdep, mem_dedupFirst]

/-! ## Theorems: retry loops (C3, C4) -/

theorem upsertAttempts_le (env : UpsertEnv) :
    ∀ fuel i isNew, (upsertAttempts env fuel i isNew).2 ≤ i + fuel := by
  intro fuel
  induction fuel with
  | zero => intro i isNew; simp [upsertAttempts]
  | succ n ih =>
    intro i isNew
    have h1 := ih (i + 1) false
    have h2 := ih (i + 1) true
    cases hu : env.upd i <;> cases hg : env.get i <;> cases isNew <;>
      simp [upsertAttempts, hu, hg] <;> omega

theorem upsertAttempts_exhaust (env : UpsertEnv)
    (hupd : ∀ i, env.upd i = .invalidState) (hget : ∀ i, env.get i = .found) :
    ∀ fuel i isNew, upsertAttempts env fuel i isNew = (.retryExhausted, i + fuel) := by
  intro fuel
  induction fuel with
  | zero => intro i isNew; simp [upsertAttempts]
  | succ n ih =>
    intro i isNew
    have h1 := ih (i + 1) false
    simp only [upsertAttempts, hupd i, hget i, h1]
    simp
    omega

/-- C3: the `upsert` conflict-recovery loop performs at most 10 update
attempts, and when every attempt ends in a recoverable conflict (with
the credential found again on re-fetch) the loop ends with the
retries-exhausted failure instead of looping on. -/
theorem c3_upsert_retries_bounded (env : UpsertEnv) :
    (upsertRun env).2 ≤ 10 ∧
    ((∀ i, env.upd i = .invalidState) → (∀ i, env.get i = .found) →
      upsertRun env = (.retryExhausted, 10)) := by
  constructor
  · simpa using upsertAttempts_le env 10 0 true
  · intro hupd hget
    simpa using upsertAttempts_exhaust env hupd hget 10 0 true

/-- Witness for C3 at the all-conflict environment. -/
theorem c3_upsert_retries_bounded_witness :
    (upsertRun ⟨fun _ => .invalidState, fun _ => .found⟩).2 ≤ 10 ∧
    upsertRun ⟨fun _ => .invalidState, fun _ => .found⟩ = (.retryExhausted, 10) := by
  have h := c3_upsert_retries_bounded ⟨fun _ => .invalidState, fun _ => .found⟩
  exact ⟨h.1, h.2 (fun _ => rfl) (fun _ => rfl)⟩

theorem deleteLoop_allConflicts :
    ∀ fuel i, deleteLoop allConflicts fuel i = none := by
  intro fuel
  induction fuel with
  | zero => intro i; rfl
  | succ n ih => intro i; simpa [deleteLoop, allConflicts] using ih (i + 1)

/-- C4 counterexample: there is no bound within which the `delete` retry
loop settles when every attempt ends in a stale-version conflict — contrary
to the claim, the `while(true)` loop of `delete` is unbounded and surfaces
no RetryExhausted failure. -/
theorem c4_counterexample_delete_retries_unbounded :
    ¬ ∃ bound : Nat, ∀ fuel, bound ≤ fuel →
      (deleteLoop allConflicts fuel 0).isSome := by
  rintro ⟨bound, h⟩
  have := h bound le_rfl
  rw [deleteLoop_allConflicts] at this
  simp at this

/-- C4 as amended: the `delete` conflict loop is unbounded — under perpetual
stale-version conflicts it never terminates (no attempt bound, no
RetryExhausted), and it returns as soon as an attempt does not end in a
conflict. -/
theorem c4_amended_delete_retries_unbounded :
    (∀ fuel i, deleteLoop allConflicts fuel i = none) ∧
    deleteLoop (fun _ => .returns) 1 0 = some .ok := by
  exact ⟨deleteLoop_allConflicts, rfl⟩

/-! ## Theorems: query translation (C8) -/

/-- C8 counterexample: a non-`QueryByExample` query type fails with a plain
`Error` (its `name` is `"Error"`), not with the `NotSupportedError` name
used for trusted-issuer entries without an id. -/
theorem c8_counterexample_unsupported_type_plain_error :
    convertVPRQuery fooVpr = .error ⟨"Error", "Unsupported query type: foo"⟩ ∧
    ("Error" : String) ≠ "NotSupportedError" := by
  exact ⟨rfl, by decide⟩

/-- C8 as amended: every non-`QueryByExample` query fails with a plain
`Error` named `"Error"`; the `NotSupportedError` classification is used for
trusted-issuer entries lacking an id. -/
theorem c8_amended_unsupported_type (vq : VprQuery)
    (h : vq.type ≠ some "QueryByExample") :
    (∃ e, convertVPRQuery vq = .error e ∧ e.name = "Error") ∧
    (∃ e, convertVPRQuery noIdVpr = .error e ∧ e.name = "NotSupportedError") := by
  constructor
  · refine ⟨⟨"Error", "Unsupported query type: " ++ (vq.type.getD "undefined")⟩, ?_, rfl⟩
    unfold convertVPRQuery
    simp [h]
  · exact ⟨⟨"NotSupportedError",
      "\"credentialQuery.trustedIssuer\" without an \"id\" is not supported."⟩, rfl, rfl⟩

/-- Witness for C8's amended theorem at the concrete unsupported query. -/
theorem c8_amended_unsupported_type_witness :
    (∃ e, convertVPRQuery fooVpr = .error e ∧ e.name = "Error") ∧
    (∃ e, convertVPRQuery noIdVpr = .error e ∧ e.name = "NotSupportedError") :=
  c8_amended_unsupported_type fooVpr (by decide)

/-! ## Theorems: bundle-op execution order (C2) -/

/-- C2 is a code bug: in the demo store, the cascade for deleting `R`
schedules the bundle ops in traversal order `x, y, z` with
`z.before = {x}`; the comparator gives 0 on the adjacent pairs, so the
TimSort-modelled `Array.prototype.sort` leaves the order unchanged and the
op for `z` runs after the op for the bundle `x` that must come after it.
The comparator is not even transitive at this input, so ECMAScript leaves
the order implementation-defined. -/
theorem c2_sort_violates_precedence :
    demoSortedOps.map (fun o => (o.docId, o.type, o.before)) =
      [(1, .delete, ["R"]), (2, .delete, ["R"]), (3, .delete, ["x"])] ∧
    mustPrecede (demoSortedOps.getD 2 noOp) (demoSortedOps.getD 0 noOp) = true ∧
    bundleCmp (demoSortedOps.getD 0 noOp) (demoSortedOps.getD 1 noOp) = 0 ∧
    bundleCmp (demoSortedOps.getD 1 noOp) (demoSortedOps.getD 2 noOp) = 0 ∧
    bundleCmp (demoSortedOps.getD 2 noOp) (demoSortedOps.getD 0 noOp) = -1 := by
  refine ⟨?_, ?_, ?_, ?_, ?_⟩ <;> decide

/-! ## Theorems: the cascade child step (C1) -/

theorem lookupDoc_id {docs : List Doc} {n : Nat} {d : Doc}
    (h : lookupDoc docs n = some d) : d.id = n := by
  have := List.find?_some h
  simpa using this

theorem childDoc_id (st : CState) (ref : DocRef) :
    (childDoc st ref).id = ref.doc.id := by
  unfold childDoc
  cases h : lookupDoc st.docs ref.doc.id with
  | none => rfl
  | some d => simpa using lookupDoc_id h

theorem lookupDoc_updateDocs_self {docs : List Doc} {d : Doc}
    (h : d.id ∈ docs.map (fun e => e.id)) :
    lookupDoc (updateDocs docs d) d.id = some d := by
  induction docs with
  | nil => simp at h
  | cons e rest ih =>
    simp only [List.map_cons, List.mem_cons] at h
    by_cases he : e.id = d.id
    · simp [lookupDoc, updateDocs, List.find?, he]
    · have hr : d.id ∈ rest.map (fun e => e.id) := by
        rcases h with h | h
        · exact absurd h.symm he
        · exact h
      simpa [lookupDoc, updateDocs, List.find?, he] using ih hr

theorem getOp_append_new {ops : List Op} {op : Op}
    (h : getOp ops op.docId = none) :
    getOp (ops ++ [op]) op.docId = some op := by
  induction ops with
  | nil => simp [getOp, List.find?]
  | cons o rest ih =>
    by_cases ho : o.docId = op.docId
    · exfalso
      simp [getOp, List.find?, ho] at h
    · simp only [getOp, List.find?_cons] at h ⊢
      simp only [List.cons_append]
      rw [List.find?_cons]
      cases hd : decide (o.docId = op.docId) with
      | true => simp at hd; exact absurd hd ho
      | false =>
        simp only [hd] at h ⊢
        exact ih h

theorem getOp_setOp_self {ops : List Op} {op : Op} {o0 : Op}
    (h : getOp ops op.docId = some o0) :
    getOp (setOp ops op) op.docId = some op := by
  induction ops with
  | nil => simp [getOp, List.find?] at h
  | cons o rest ih =>
    by_cases ho : o.docId = op.docId
    · simp [getOp, setOp, List.find?, ho]
    · simp only [getOp, setOp, List.map_cons, if_neg ho] at *
      rw [List.find?_cons] at h ⊢
      cases hd : decide (o.docId = op.docId) with
      | true => simp at hd; exact absurd hd ho
      | false =>
        simp only [hd] at h ⊢
        exact ih h

theorem getOp_docId {ops : List Op} {n : Nat} {o : Op}
    (h : getOp ops n = some o) : o.docId = n := by
  have := List.find?_some h
  simpa using this

theorem scheduledOp_docId (bundleId : String) (ops : List Op) (doc : Doc) :
    (scheduledOp bundleId ops doc).docId = doc.id := by
  unfold scheduledOp
  cases h : getOp ops doc.id with
  | none => rfl
  | some op0 => simpa using getOp_docId h

theorem getOp_opsAfterSchedule (bundleId : String) (ops : List Op) (doc : Doc) :
    getOp (opsAfterSchedule bundleId ops doc) doc.id
      = some (scheduledOp bundleId ops doc) := by
  unfold opsAfterSchedule
  cases h : getOp ops doc.id with
  | none =>
    have hd : (scheduledOp bundleId ops doc).docId = doc.id :=
      scheduledOp_docId bundleId ops doc
    have h' : getOp ops (scheduledOp bundleId ops doc).docId = none := by rwa [hd]
    have := getOp_append_new h'
    rwa [hd] at this
  | some op0 =>
    have hd : (scheduledOp bundleId ops doc).docId = doc.id :=
      scheduledOp_docId bundleId ops doc
    have h' : getOp ops (scheduledOp bundleId ops doc).docId = some op0 := by
      rwa [hd]
    have := getOp_setOp_self h'
    rwa [hd] at this


/-- C1: one step of the cascade on a child reference.  After the parent's id
is removed from the child's `bundledBy` set: with remaining parents the
child's operation is an update and nothing is pushed for recursion; with no
remaining parents and `meta.dependent` truthy the operation becomes a delete
and the child's sub-bundle is pushed unless its id is already processed;
with no remaining parents and `meta.dependent` not truthy the operation is
an update and nothing is pushed.  The hypotheses say the shared object is
tracked in the state and that any previously scheduled operation for the
child is an update (both hold in every reachable state when the child still
has remaining parents or is not dependent). -/
theorem c1_cascade_child_step (bundleId : String) (st : CState) (ref : DocRef)
    (hdoc : ref.doc.id ∈ st.docs.map (fun d => d.id))
    (hop : ∀ o, getOp st.ops ref.doc.id = some o → o.type = .update) :
    (∃ d', lookupDoc (processChild bundleId st ref).docs ref.doc.id = some d' ∧
       bbList d'.meta = childRemaining bundleId st ref ∧
       bundleId ∉ bbList d'.meta) ∧
    (childRemaining bundleId st ref ≠ [] →
      (∃ o, getOp (processChild bundleId st ref).ops ref.doc.id = some o ∧
        o.type = .update) ∧
      (processChild bundleId st ref).next = st.next) ∧
    (childRemaining bundleId st ref = [] →
      (childDoc st ref).meta.dependent = some true →
      (∃ o, getOp (processChild bundleId st ref).ops ref.doc.id = some o ∧
        o.type = .delete) ∧
      (processChild bundleId st ref).next = st.next ++
        (match ref.sub with
         | some sb =>
           if processedGuard st.processed (childDoc st ref) then [] else [sb]
         | none => [])) ∧
    (childRemaining bundleId st ref = [] →
      ¬(childDoc st ref).meta.dependent = some true →
      (∃ o, getOp (processChild bundleId st ref).ops ref.doc.id = some o ∧
        o.type = .update) ∧
      (processChild bundleId st ref).next = st.next) := by
  have hid : (unlinkedDoc bundleId st ref).id = ref.doc.id := by
    simpa [unlinkedDoc] using childDoc_id st ref
  have hmem : (unlinkedDoc bundleId st ref).id ∈ st.docs.map (fun d => d.id) := by
    rw [hid]; exact hdoc
  have hlook := lookupDoc_updateDocs_self hmem
  rw [hid] at hlook
  have hsched : getOp (opsAfterSchedule bundleId st.ops (unlinkedDoc bundleId st ref))
      ref.doc.id
      = some (scheduledOp bundleId st.ops (unlinkedDoc bundleId st ref)) := by
    have := getOp_opsAfterSchedule bundleId st.ops (unlinkedDoc bundleId st ref)
    rwa [hid] at this
  have hschedid : (scheduledOp bundleId st.ops (unlinkedDoc bundleId st ref)).docId
      = ref.doc.id := by rw [scheduledOp_docId, hid]
  have htype : (scheduledOp bundleId st.ops (unlinkedDoc bundleId st ref)).type
      = .update := by
    unfold scheduledOp
    cases h : getOp st.ops (unlinkedDoc bundleId st ref).id with
    | none => rfl
    | some op0 =>
      simpa using hop op0 (by rwa [hid] at h)
  have hbbeq : (unlinkedDoc bundleId st ref).meta.bundledBy
      = if childRemaining bundleId st ref ≠ []
        then some (childRemaining bundleId st ref) else none := rfl
  have hbbval : bbList (unlinkedDoc bundleId st ref).meta
      = childRemaining bundleId st ref := by
    rw [bbList, hbbeq]
    by_cases h : childRemaining bundleId st ref = [] <;> simp [h]
  have hnotmem : bundleId ∉ bbList (unlinkedDoc bundleId st ref).meta := by
    rw [hbbval, childRemaining]
    intro hx
    have := List.of_mem_filter hx
    simp at this
  have hdep_eq : (unlinkedDoc bundleId st ref).meta.dependent
      = (childDoc st ref).meta.dependent := rfl
  have hguard_eq : processedGuard st.processed (unlinkedDoc bundleId st ref)
      = processedGuard st.processed (childDoc st ref) := rfl
  have hops2 : getOp (setOp
        (opsAfterSchedule bundleId st.ops (unlinkedDoc bundleId st ref))
        (markDelete (scheduledOp bundleId st.ops (unlinkedDoc bundleId st ref))))
      ref.doc.id
      = some (markDelete (scheduledOp bundleId st.ops
          (unlinkedDoc bundleId st ref))) := by
    have hmd : (markDelete (scheduledOp bundleId st.ops
        (unlinkedDoc bundleId st ref))).docId = ref.doc.id := hschedid
    have h' : getOp (opsAfterSchedule bundleId st.ops (unlinkedDoc bundleId st ref))
        (markDelete (scheduledOp bundleId st.ops
          (unlinkedDoc bundleId st ref))).docId
        = some (scheduledOp bundleId st.ops (unlinkedDoc bundleId st ref)) := by
      rw [hmd]; exact hsched
    have := getOp_setOp_self h'
    rwa [hmd] at this
  by_cases hrem : childRemaining bundleId st ref = []
  · by_cases hdep : (childDoc st ref).meta.dependent = some true
    · -- no remaining parents, dependent: delete and recurse
      have hcond : ¬(childRemaining bundleId st ref ≠ [] ∨
          ¬((unlinkedDoc bundleId st ref).meta.dependent = some true)) := by
        push_neg
        exact ⟨hrem, by rw [hdep_eq]; exact hdep⟩
      refine ⟨?_, fun h => absurd hrem h, fun _ _ => ⟨?_, ?_⟩,
        fun _ h => absurd hdep h⟩
      · cases hsub : ref.sub with
        | none =>
          exact ⟨unlinkedDoc bundleId st ref,
            by simpa [processChild, hcond, hsub] using hlook, hbbval, hnotmem⟩
        | some sb =>
          by_cases hproc : processedGuard st.processed (childDoc st ref) = true
          · exact ⟨unlinkedDoc bundleId st ref,
              by simpa [processChild, hcond, hsub, hguard_eq, hproc] using hlook,
              hbbval, hnotmem⟩
          · exact ⟨unlinkedDoc bundleId st ref,
              by simpa [processChild, hcond, hsub, hguard_eq, hproc] using hlook,
              hbbval, hnotmem⟩
      · cases hsub : ref.sub with
        | none =>
          exact ⟨_, by simpa [processChild, hcond, hsub] using hops2, rfl⟩
        | some sb =>
          by_cases hproc : processedGuard st.processed (childDoc st ref) = true
          · exact ⟨_,
              by simpa [processChild, hcond, hsub, hguard_eq, hproc] using hops2,
              rfl⟩
          · exact ⟨_,
              by simpa [processChild, hcond, hsub, hguard_eq, hproc] using hops2,
              rfl⟩
      · cases hsub : ref.sub with
        | none => simp [processChild, hcond, hsub]
        | some sb =>
          by_cases hproc : processedGuard st.processed (childDoc st ref) = true
          · simp [processChild, hcond, hsub, hguard_eq, hproc]
          · simp [processChild, hcond, hsub, hguard_eq, hproc]
    · -- no remaining parents, not dependent: update only, no recursion
      have hcond : childRemaining bundleId st ref ≠ [] ∨
          ¬((unlinkedDoc bundleId st ref).meta.dependent = some true) :=
        Or.inr (by rw [hdep_eq]; exact hdep)
      refine ⟨⟨unlinkedDoc bundleId st ref,
          by simpa [processChild, hcond] using hlook, hbbval, hnotmem⟩,
        fun h => absurd hrem h, fun _ h => absurd h hdep, fun _ _ => ⟨?_, ?_⟩⟩
      · exact ⟨scheduledOp bundleId st.ops (unlinkedDoc bundleId st ref),
          by simpa [processChild, hcond] using hsched, htype⟩
      · simp [processChild, hcond]
  · -- remaining parents: update only, no recursion
    have hcond : childRemaining bundleId st ref ≠ [] ∨
        ¬((unlinkedDoc bundleId st ref).meta.dependent = some true) := Or.inl hrem
    refine ⟨⟨unlinkedDoc bundleId st ref,
        by simpa [processChild, hcond] using hlook, hbbval, hnotmem⟩,
      fun _ => ⟨?_, ?_⟩, fun h => absurd h hrem, fun h => absurd h hrem⟩
    · exact ⟨scheduledOp bundleId st.ops (unlinkedDoc bundleId st ref),
        by simpa [processChild, hcond] using hsched, htype⟩
    · simp [processChild, hcond]

/-! ## Theorems: bundle closure shape (C10) -/

theorem bfsAddKeys_retrieved (st : BfsState) (d : Doc) :
    (bfsAddKeys st d).retrieved = st.retrieved := by
  unfold bfsAddKeys
  split
  · split
    · split <;> rfl
    · rfl
  · rfl

theorem bfsAddDoc_inv {s : Store} {rootId : String} {st : BfsState} {d : Doc}
    (hd : d ∈ s) (h : RetInv s rootId st.retrieved) :
    RetInv s rootId (bfsAddDoc rootId st d).retrieved := by
  obtain ⟨h1, h2, h3⟩ := h
  unfold bfsAddDoc
  by_cases hskip : d.content.id = some rootId ∨
      st.retrieved.any (fun r => r.id = d.id) = true
  · rw [if_pos hskip]; exact ⟨h1, h2, h3⟩
  · rw [if_neg hskip]
    push_neg at hskip
    obtain ⟨hroot, hany⟩ := hskip
    rw [bfsAddKeys_retrieved]
    refine ⟨?_, ?_, ?_⟩
    · intro e he
      rcases List.mem_append.mp he with he | he
      · exact h1 e he
      · rw [List.mem_singleton.mp he]; exact hd
    · intro e he
      rcases List.mem_append.mp he with he | he
      · exact h2 e he
      · rw [List.mem_singleton.mp he]; exact hroot
    · rw [List.map_append]
      refine List.Nodup.append h3 (by simp) ?_
      intro x hx hy
      simp only [List.map_cons, List.map_nil, List.mem_singleton] at hy
      subst hy
      rcases List.mem_map.mp hx with ⟨r, hr, hrid⟩
      have hany' : ∀ r ∈ st.retrieved, ¬r.id = d.id := by simpa using hany
      exact hany' r hr hrid

theorem foldl_bfsAddDoc_inv {s : Store} {rootId : String} :
    ∀ {docs : List Doc} {st : BfsState}, (∀ d ∈ docs, d ∈ s) →
      RetInv s rootId st.retrieved →
      RetInv s rootId (docs.foldl (bfsAddDoc rootId) st).retrieved := by
  intro docs
  induction docs with
  | nil => intro st _ h; exact h
  | cons d rest ih =>
    intro st hdocs h
    have hd : d ∈ s := hdocs d (List.mem_cons_self d rest)
    have hrest : ∀ e ∈ rest, e ∈ s := fun e he => hdocs e (List.mem_cons_of_mem d he)
    exact ih hrest (bfsAddDoc_inv hd h)

theorem bfsRound_inv {s : Store} {rootId : String} {st : BfsState}
    (h : RetInv s rootId st.retrieved) :
    RetInv s rootId (bfsRound s rootId st).retrieved := by
  unfold bfsRound
  refine foldl_bfsAddDoc_inv ?_ h
  intro d hd
  exact List.mem_of_mem_filter hd

theorem bfsLoop_inv {s : Store} {rootId : String} :
    ∀ {fuel : Nat} {st : BfsState}, RetInv s rootId st.retrieved →
      RetInv s rootId (bfsLoop s rootId fuel st).retrieved := by
  intro fuel
  induction fuel with
  | zero => intro st h; exact h
  | succ n ih =>
    intro st h
    unfold bfsLoop
    by_cases he : st.frontier = []
    · rw [if_pos he]; exact h
    · rw [if_neg he]
      exact ih (bfsRound_inv h)

theorem getBundle_retInv (s : Store) (rootId : String) :
    RetInv s rootId (_getBundle s rootId).2 := by
  unfold _getBundle
  apply bfsLoop_inv
  unfold RetInv
  refine ⟨?_, ?_, ?_⟩ <;> simp

/-- C10: the bundle closure never contains a document whose `content.id` is
the root id (the root is excluded from its own closure), and each EDV
document occurs at most once (`allSubDocuments` has pairwise distinct
document ids); moreover every returned document comes from the store. -/
theorem c10_getBundle_excludes_root_and_dedups (s : Store) (rootId : String) :
    (∀ d ∈ (_getBundle s rootId).2, d.content.id ≠ some rootId) ∧
    ((_getBundle s rootId).2.map (fun d => d.id)).Nodup ∧
    (∀ d ∈ (_getBundle s rootId).2, d ∈ s) := by
  obtain ⟨h1, h2, h3⟩ := getBundle_retInv s rootId
  exact ⟨h2, h3, h1⟩

/-- Witness for C1 at a concrete state (unlinking `B` from a child that
remains bundled by `P`). -/
theorem c1_cascade_child_step_witness :
    (∃ d', lookupDoc (processChild "B" c1State c1Ref).docs c1Ref.doc.id = some d' ∧
       bbList d'.meta = childRemaining "B" c1State c1Ref ∧
       "B" ∉ bbList d'.meta) ∧
    (childRemaining "B" c1State c1Ref ≠ [] →
      (∃ o, getOp (processChild "B" c1State c1Ref).ops c1Ref.doc.id = some o ∧
        o.type = .update) ∧
      (processChild "B" c1State c1Ref).next = c1State.next) ∧
    (childRemaining "B" c1State c1Ref = [] →
      (childDoc c1State c1Ref).meta.dependent = some true →
      (∃ o, getOp (processChild "B" c1State c1Ref).ops c1Ref.doc.id = some o ∧
        o.type = .delete) ∧
      (processChild "B" c1State c1Ref).next = c1State.next ++
        (match c1Ref.sub with
         | some sb =>
           if processedGuard c1State.processed (childDoc c1State c1Ref) then []
           else [sb]
         | none => [])) ∧
    (childRemaining "B" c1State c1Ref = [] →
      ¬(childDoc c1State c1Ref).meta.dependent = some true →
      (∃ o, getOp (processChild "B" c1State c1Ref).ops c1Ref.doc.id = some o ∧
        o.type = .update) ∧
      (processChild "B" c1State c1Ref).next = c1State.next) :=
  c1_cascade_child_step "B" c1State c1Ref (by decide)
    (by intro o h; simp [c1State, getOp, List.find?] at h)

/-! ## Theorems: insert validation and the bundle flag (C9) -/

theorem resolveIssuer_bundle {credential : Credential} {m m' : Meta}
    (h : resolveIssuer credential m = .ok m') : m'.bundle = m.bundle := by
  unfold resolveIssuer at h
  by_cases hiss : issuerTruthy m.issuer = true
  · rw [if_pos hiss] at h
    cases h; rfl
  · rw [if_neg hiss] at h
    cases hg : _getIssuer credential with
    | error e => rw [hg] at h; cases h
    | ok iss => rw [hg] at h; cases h; rfl

/-- C9: when `bundleContents` is defined (even as `[]`) and `credential.id`
is absent or not truthy, `insert` fails before performing any store write
(the store is unchanged and the write trace is empty); and with an empty
`bundleContents` the stored document's `meta.bundle` flag is not set (the
flag is only set when `bundleContents` has at least one entry). -/
theorem c9_insert_requires_id_and_bundle_flag (s : Store) (gen : Nat)
    (credential : Credential) (metaIn : Meta) (l : List BundleEntry)
    (hid : ¬ strTruthy credential.id = true) :
    ((∃ e, (insertVc s gen credential metaIn (some l)).res = .error e) ∧
      (insertVc s gen credential metaIn (some l)).store = s ∧
      (insertVc s gen credential metaIn (some l)).trace = []) ∧
    (∀ (cred2 : Credential) (meta2 : Meta) (s2 : Store) (gen2 : Nat) (d : Doc),
      meta2.bundle = none →
      (insertVc s2 gen2 cred2 meta2 (some [])).res = .ok d →
      d.meta.bundle = none) := by
  constructor
  · cases hval : assertBundleContents l with
    | error e =>
      refine ⟨⟨e, ?_⟩, ?_, ?_⟩ <;> simp [insertVc, hval]
    | ok u =>
      cases u
      refine ⟨⟨⟨"Error", "\"credential.id\" must be a string to define a bundle."⟩, ?_⟩,
        ?_, ?_⟩ <;> simp [insertVc, hval, hid]
  · intro cred2 meta2 s2 gen2 d hb hok
    by_cases hid2 : strTruthy cred2.id = true
    · cases hri : resolveIssuer cred2 meta2 with
      | error e =>
        exfalso
        simp [insertVc, assertBundleContents, hid2, hri] at hok
      | ok m =>
        have hmb : m.bundle = none := by
          rw [resolveIssuer_bundle hri, hb]
        by_cases hdup : ∃ x ∈ s2, x.content.id = cred2.id
        · exfalso
          simp [insertVc, assertBundleContents, hid2, hri, hdup] at hok
        · cases hcid : cred2.id with
          | none => rw [hcid] at hid2; exact absurd hid2 (by simp [strTruthy])
          | some cid =>
            rw [hcid] at hdup hid2
            simp [insertVc, assertBundleContents, hid2, hri, hcid, hdup] at hok
            rw [← hok]
            simpa using hmb
    · exfalso
      simp [insertVc, assertBundleContents, hid2] at hok

/-- Witness for C9: inserting a credential without an id together with a
(defined, empty) `bundleContents` fails and writes nothing. -/
theorem c9_insert_requires_id_and_bundle_flag_witness :
    ((∃ e, (insertVc [] 0 noIdCred {} (some [])).res = .error e) ∧
      (insertVc [] 0 noIdCred {} (some [])).store = [] ∧
      (insertVc [] 0 noIdCred {} (some [])).trace = []) ∧
    (∀ (cred2 : Credential) (meta2 : Meta) (s2 : Store) (gen2 : Nat) (d : Doc),
      meta2.bundle = none →
      (insertVc s2 gen2 cred2 meta2 (some [])).res = .ok d →
      d.meta.bundle = none) :=
  c9_insert_requires_id_and_bundle_flag [] 0 noIdCred {} [] (by decide)

/-! ## Theorems: delete with a bundled target (C5) -/

theorem mem_of_eq_id {s : Store} {a b : Doc}
    (hids : (s.map (fun d => d.id)).Nodup)
    (ha : a ∈ s) (hb : b ∈ s) (h : a.id = b.id) : a = b := by
  induction s with
  | nil => cases ha
  | cons x rest ih =>
    rw [List.map_cons, List.nodup_cons] at hids
    rcases List.mem_cons.mp ha with rfl | ha' <;>
      rcases List.mem_cons.mp hb with rfl | hb'
    · rfl
    · exact absurd (List.mem_map.mpr ⟨b, hb', h.symm⟩) hids.1
    · exact absurd (List.mem_map.mpr ⟨a, ha', h⟩) hids.1
    · exact ih hids.2 ha' hb'

theorem lookupDoc_exists {docs : List Doc} {n : Nat}
    (h : n ∈ docs.map (fun d => d.id)) : ∃ d, lookupDoc docs n = some d := by
  induction docs with
  | nil => simp at h
  | cons x rest ih =>
    by_cases hx : x.id = n
    · exact ⟨x, by simp [lookupDoc, List.find?, hx]⟩
    · have h' : n ∈ rest.map (fun d => d.id) := by
        rcases List.mem_map.mp h with ⟨d, hd, hid⟩
        rcases List.mem_cons.mp hd with rfl | hd'
        · exact absurd hid hx
        · exact List.mem_map.mpr ⟨d, hd', hid⟩
      rcases ih h' with ⟨d, hd⟩
      exact ⟨d, by simpa [lookupDoc, List.find?, hx] using hd⟩

theorem lookupDoc_getD_id (docs : List Doc) (n : Nat) :
    ((lookupDoc docs n).getD (dummyDoc n)).id = n := by
  cases h : lookupDoc docs n with
  | none => rfl
  | some d => simpa using lookupDoc_id h

theorem applyOp_ok {docs : List Doc} {s : Store} {op : Op}
    (hids : (s.map (fun d => d.id)).Nodup)
    (huq : contentUnique s)
    (hex : ∃ d0 ∈ s, d0.id = op.docId ∧
      d0.content = ((lookupDoc docs op.docId).getD (dummyDoc op.docId)).content) :
    ∃ s', applyOp docs s op = .ok s' ∧
      (s'.map (fun d => d.id)).Nodup ∧ contentUnique s' ∧
      (∀ e ∈ s, e.id ≠ op.docId → e ∈ s') := by
  obtain ⟨d0, hd0s, hd0id, hd0c⟩ := hex
  have hdid : ((lookupDoc docs op.docId).getD (dummyDoc op.docId)).id = op.docId :=
    lookupDoc_getD_id docs op.docId
  cases htype : op.type with
  | update =>
    have hpres : s.any (fun e =>
        e.id = ((lookupDoc docs op.docId).getD (dummyDoc op.docId)).id) = true := by
      rw [List.any_eq_true]
      exact ⟨d0, hd0s, by simp [hdid, hd0id]⟩
    have hdup : ¬ s.any (fun e =>
        e.id ≠ ((lookupDoc docs op.docId).getD (dummyDoc op.docId)).id ∧
        e.content.id = ((lookupDoc docs op.docId).getD (dummyDoc op.docId)).content.id ∧
        strTruthy ((lookupDoc docs op.docId).getD (dummyDoc op.docId)).content.id) = true := by
      rw [List.any_eq_true]
      rintro ⟨e, hes, he⟩
      simp only [decide_eq_true_eq] at he
      obtain ⟨hne, hcid, htr⟩ := he
      have hd0cid : d0.content.id =
          ((lookupDoc docs op.docId).getD (dummyDoc op.docId)).content.id := by
        rw [hd0c]
      have : e = d0 := by
        refine huq e hes d0 hd0s ?_ ?_
        · rw [hcid, hd0cid]
        · rw [hcid]; exact htr
      rw [this, hd0id] at hne
      exact hne hdid.symm
    refine ⟨s.map (fun e =>
        if e.id = ((lookupDoc docs op.docId).getD (dummyDoc op.docId)).id
        then ((lookupDoc docs op.docId).getD (dummyDoc op.docId)) else e), ?_, ?_, ?_, ?_⟩
    · simp only [applyOp, htype, edvUpdate]
      rw [if_neg (by simpa using hdup), if_pos (by simpa using hpres)]
    · rw [List.map_map]
      have : ((fun d => d.id) ∘ (fun e =>
          if e.id = ((lookupDoc docs op.docId).getD (dummyDoc op.docId)).id
          then ((lookupDoc docs op.docId).getD (dummyDoc op.docId)) else e))
          = fun (e : Doc) => e.id := by
        funext e
        by_cases h : e.id = ((lookupDoc docs op.docId).getD (dummyDoc op.docId)).id <;>
          simp [h]
      rw [this]; exact hids
    · have hcontent : ∀ e ∈ s,
          ((if e.id = ((lookupDoc docs op.docId).getD (dummyDoc op.docId)).id
            then ((lookupDoc docs op.docId).getD (dummyDoc op.docId)) else e)).content
          = e.content := by
        intro e hes
        by_cases h : e.id = ((lookupDoc docs op.docId).getD (dummyDoc op.docId)).id
        · have : e = d0 := mem_of_eq_id hids hes hd0s (by rw [h, hdid, hd0id])
          rw [if_pos h, this, hd0c]
        · rw [if_neg h]
      intro a ha b hb hab hat
      rcases List.mem_map.mp ha with ⟨a0, ha0, rfl⟩
      rcases List.mem_map.mp hb with ⟨b0, hb0, rfl⟩
      have h1 := hcontent a0 ha0
      have h2 := hcontent b0 hb0
      have : a0 = b0 := by
        refine huq a0 ha0 b0 hb0 ?_ ?_
        · rw [h1, h2] at hab; exact hab
        · rw [h1] at hat; exact hat
      rw [this]
    · intro e hes hne
      refine List.mem_map.mpr ⟨e, hes, ?_⟩
      rw [if_neg (by rw [hdid]; exact hne)]
  | delete =>
    have hpres : s.any (fun e =>
        e.id = ((lookupDoc docs op.docId).getD (dummyDoc op.docId)).id) = true := by
      rw [List.any_eq_true]
      exact ⟨d0, hd0s, by simp [hdid, hd0id]⟩
    refine ⟨s.filter (fun e =>
        e.id ≠ ((lookupDoc docs op.docId).getD (dummyDoc op.docId)).id), ?_, ?_, ?_, ?_⟩
    · simp only [applyOp, htype, edvDelete]
      rw [if_pos (by simpa using hpres)]
    · exact List.Sublist.nodup (List.Sublist.map _ (List.filter_sublist s)) hids
    · intro a ha b hb hab hat
      exact huq a (List.mem_of_mem_filter ha) b (List.mem_of_mem_filter hb) hab hat
    · intro e hes hne
      refine List.mem_filter.mpr ⟨hes, ?_⟩
      simp [hdid, hne]

theorem runOpsStop_ok {docs : List Doc} :
    ∀ {ops : List Op} {s : Store},
    (s.map (fun d => d.id)).Nodup → contentUnique s →
    (∀ op ∈ ops, ∃ d0 ∈ s, d0.id = op.docId ∧
      d0.content = ((lookupDoc docs op.docId).getD (dummyDoc op.docId)).content) →
    ((ops.map (fun o => o.docId)).Nodup) →
    ∃ s', runOpsStop docs s ops = (.ok (), s') ∧
      (s'.map (fun d => d.id)).Nodup ∧ contentUnique s' ∧
      (∀ e ∈ s, e.id ∉ ops.map (fun o => o.docId) → e ∈ s') := by
  intro ops
  induction ops with
  | nil =>
    intro s h1 h2 _ _
    exact ⟨s, rfl, h1, h2, fun e he _ => he⟩
  | cons op rest ih =>
    intro s h1 h2 hex hnd
    obtain ⟨s1, happ, hn1, hu1, hpres⟩ :=
      applyOp_ok h1 h2 (hex op (List.mem_cons_self op rest))
    rw [List.map_cons, List.nodup_cons] at hnd
    have hex1 : ∀ op' ∈ rest, ∃ d0 ∈ s1, d0.id = op'.docId ∧
        d0.content = ((lookupDoc docs op'.docId).getD (dummyDoc op'.docId)).content := by
      intro op' hop'
      obtain ⟨d0, hd0s, hd0id, hd0c⟩ := hex op' (List.mem_cons_of_mem op hop')
      have hneq : d0.id ≠ op.docId := by
        rw [hd0id]
        intro h
        exact hnd.1 (List.mem_map.mpr ⟨op', hop', h⟩)
      exact ⟨d0, hpres d0 hd0s hneq, hd0id, hd0c⟩
    obtain ⟨s', hrun, hn', hu', hpres'⟩ := ih hn1 hu1 hex1 hnd.2
    refine ⟨s', ?_, hn', hu', ?_⟩
    · simp [runOpsStop, happ, hrun]
    · intro e he hnin
      rw [List.map_cons, List.mem_cons] at hnin
      push_neg at hnin
      exact hpres' e (hpres e he hnin.1) hnin.2

theorem runOpsCollect_ok {docs : List Doc} :
    ∀ {ops : List Op} {s : Store},
    (s.map (fun d => d.id)).Nodup → contentUnique s →
    (∀ op ∈ ops, ∃ d0 ∈ s, d0.id = op.docId ∧
      d0.content = ((lookupDoc docs op.docId).getD (dummyDoc op.docId)).content) →
    ((ops.map (fun o => o.docId)).Nodup) →
    ∃ s', runOpsCollect docs s ops = (s', []) ∧
      (s'.map (fun d => d.id)).Nodup ∧ contentUnique s' ∧
      (∀ e ∈ s, e.id ∉ ops.map (fun o => o.docId) → e ∈ s') := by
  intro ops
  induction ops with
  | nil =>
    intro s h1 h2 _ _
    exact ⟨s, rfl, h1, h2, fun e he _ => he⟩
  | cons op rest ih =>
    intro s h1 h2 hex hnd
    obtain ⟨s1, happ, hn1, hu1, hpres⟩ :=
      applyOp_ok h1 h2 (hex op (List.mem_cons_self op rest))
    rw [List.map_cons, List.nodup_cons] at hnd
    have hex1 : ∀ op' ∈ rest, ∃ d0 ∈ s1, d0.id = op'.docId ∧
        d0.content = ((lookupDoc docs op'.docId).getD (dummyDoc op'.docId)).content := by
      intro op' hop'
      obtain ⟨d0, hd0s, hd0id, hd0c⟩ := hex op' (List.mem_cons_of_mem op hop')
      have hneq : d0.id ≠ op.docId := by
        rw [hd0id]
        intro h
        exact hnd.1 (List.mem_map.mpr ⟨op', hop', h⟩)
      exact ⟨d0, hpres d0 hd0s hneq, hd0id, hd0c⟩
    obtain ⟨s', hrun, hn', hu', hpres'⟩ := ih hn1 hu1 hex1 hnd.2
    refine ⟨s', ?_, hn', hu', ?_⟩
    · simp [runOpsCollect, happ, hrun]
    · intro e he hnin
      rw [List.map_cons, List.mem_cons] at hnin
      push_neg at hnin
      exact hpres' e (hpres e he hnin.1) hnin.2

theorem setOp_map_docId (ops : List Op) (op : Op) :
    (setOp ops op).map (fun o => o.docId) = ops.map (fun o => o.docId) := by
  unfold setOp
  rw [List.map_map]
  apply List.map_congr_left
  intro o _
  by_cases h : o.docId = op.docId <;> simp [h]

theorem updateDocs_map_id (docs : List Doc) (d : Doc) :
    (updateDocs docs d).map (fun e => e.id) = docs.map (fun e => e.id) := by
  unfold updateDocs
  rw [List.map_map]
  apply List.map_congr_left
  intro e _
  by_cases h : e.id = d.id <;> simp [h]

theorem getOp_none_not_mem {ops : List Op} {n : Nat} (h : getOp ops n = none) :
    n ∉ ops.map (fun o => o.docId) := by
  intro hmem
  rcases List.mem_map.mp hmem with ⟨o, ho, hid⟩
  have := List.find?_eq_none.mp h o ho
  simp [hid] at this

theorem setOp_mem {ops : List Op} {op o' : Op} (h : o' ∈ setOp ops op) :
    o' = op ∨ o' ∈ ops := by
  rcases List.mem_map.mp h with ⟨o, ho, hval⟩
  by_cases hc : o.docId = op.docId
  · left; rw [← hval]; simp [hc]
  · right; rw [← hval]; simpa [hc] using ho

theorem updateDocs_mem {docs : List Doc} {d dd : Doc} (h : dd ∈ updateDocs docs d) :
    dd = d ∨ dd ∈ docs := by
  rcases List.mem_map.mp h with ⟨e, he, hval⟩
  by_cases hc : e.id = d.id
  · left; rw [← hval]; simp [hc]
  · right; rw [← hval]; simpa [hc] using he

theorem processChild_fields (bid : String) (st : CState) (ref : DocRef) :
    (processChild bid st ref).docs = updateDocs st.docs (unlinkedDoc bid st ref) ∧
    ((processChild bid st ref).ops
        = opsAfterSchedule bid st.ops (unlinkedDoc bid st ref) ∨
     (processChild bid st ref).ops
        = setOp (opsAfterSchedule bid st.ops (unlinkedDoc bid st ref))
            (markDelete (scheduledOp bid st.ops (unlinkedDoc bid st ref)))) := by
  by_cases hcond : (childRemaining bid st ref ≠ [] ∨
      ¬((unlinkedDoc bid st ref).meta.dependent = some true))
  · constructor
    · simp [processChild, hcond]
    · left; simp [processChild, hcond]
  · cases hsub : ref.sub with
    | none =>
      constructor
      · simp [processChild, hcond, hsub]
      · right; simp [processChild, hcond, hsub]
    | some sb =>
      by_cases hproc : processedGuard st.processed (unlinkedDoc bid st ref) = true
      · constructor
        · simp [processChild, hcond, hsub, hproc]
        · right; simp [processChild, hcond, hsub, hproc]
      · constructor
        · simp [processChild, hcond, hsub, hproc]
        · right; simp [processChild, hcond, hsub, hproc]

theorem processChild_inv {allSub : List Doc} {bid : String} {st : CState}
    {ref : DocRef} (href : ref.doc.id ∈ allSub.map (fun d => d.id))
    (h : CascadeInv allSub st) : CascadeInv allSub (processChild bid st ref) := by
  obtain ⟨hmem, hnd, hdocids, hdoccontent⟩ := h
  have huid : (unlinkedDoc bid st ref).id = ref.doc.id := by
    simpa [unlinkedDoc] using childDoc_id st ref
  -- the unlinked doc carries the id and content of a closure document
  have hucontent : ∃ a ∈ allSub, (unlinkedDoc bid st ref).id = a.id ∧
      (unlinkedDoc bid st ref).content = a.content := by
    have hex : ∃ dd, lookupDoc st.docs ref.doc.id = some dd := by
      apply lookupDoc_exists
      rw [hdocids]
      exact href
    obtain ⟨dd, hdd⟩ := hex
    have hddmem : dd ∈ st.docs := List.mem_of_find?_eq_some hdd
    obtain ⟨a, haSub, haid, hac⟩ := hdoccontent dd hddmem
    refine ⟨a, haSub, ?_, ?_⟩
    · have : (unlinkedDoc bid st ref).id = dd.id := by
        simp [unlinkedDoc, childDoc, hdd]
      rw [this, haid]
    · have : (unlinkedDoc bid st ref).content = dd.content := by
        simp [unlinkedDoc, childDoc, hdd]
      rw [this, hac]
  have hschedid : (scheduledOp bid st.ops (unlinkedDoc bid st ref)).docId
      = ref.doc.id := by rw [scheduledOp_docId, huid]
  -- invariants of the scheduled op list
  have hopsAfter :
      (∀ op ∈ opsAfterSchedule bid st.ops (unlinkedDoc bid st ref),
        op.docId ∈ allSub.map (fun d => d.id)) ∧
      ((opsAfterSchedule bid st.ops (unlinkedDoc bid st ref)).map
        (fun o => o.docId)).Nodup := by
    unfold opsAfterSchedule
    cases hgo : getOp st.ops (unlinkedDoc bid st ref).id with
    | none =>
      constructor
      · intro op hop
        rcases List.mem_append.mp hop with hop | hop
        · exact hmem op hop
        · rw [List.mem_singleton.mp hop, hschedid]
          exact href
      · rw [List.map_append]
        refine List.Nodup.append hnd (by simp) ?_
        intro x hx hy
        simp only [List.map_cons, List.map_nil, List.mem_singleton] at hy
        subst hy
        have hnin := getOp_none_not_mem hgo
        rw [huid] at hnin
        rw [hschedid] at hx
        exact hnin hx
    | some op0 =>
      constructor
      · intro op hop
        rcases setOp_mem hop with rfl | hop
        · rw [hschedid]; exact href
        · exact hmem op hop
      · rw [setOp_map_docId]; exact hnd
  have hopsDel :
      (∀ op ∈ setOp (opsAfterSchedule bid st.ops (unlinkedDoc bid st ref))
          (markDelete (scheduledOp bid st.ops (unlinkedDoc bid st ref))),
        op.docId ∈ allSub.map (fun d => d.id)) ∧
      ((setOp (opsAfterSchedule bid st.ops (unlinkedDoc bid st ref))
          (markDelete (scheduledOp bid st.ops (unlinkedDoc bid st ref)))).map
        (fun o => o.docId)).Nodup := by
    constructor
    · intro op hop
      rcases setOp_mem hop with rfl | hop
      · show (markDelete _).docId ∈ _
        rw [show (markDelete (scheduledOp bid st.ops
            (unlinkedDoc bid st ref))).docId
            = (scheduledOp bid st.ops (unlinkedDoc bid st ref)).docId from rfl,
          hschedid]
        exact href
      · exact hopsAfter.1 op hop
    · rw [setOp_map_docId]; exact hopsAfter.2
  obtain ⟨hdocs, hops⟩ := processChild_fields bid st ref
  refine ⟨?_, ?_, ?_, ?_⟩
  · rcases hops with hops | hops <;> rw [hops]
    · exact hopsAfter.1
    · exact hopsDel.1
  · rcases hops with hops | hops <;> rw [hops]
    · exact hopsAfter.2
    · exact hopsDel.2
  · rw [hdocs, updateDocs_map_id]
    exact hdocids
  · rw [hdocs]
    intro dd hdd
    rcases updateDocs_mem hdd with rfl | hdd
    · exact hucontent
    · exact hdoccontent dd hdd

theorem foldl_processChild_inv {allSub : List Doc} {bid : String} :
    ∀ {refs : List DocRef} {st : CState},
      (∀ ref ∈ refs, ref.doc ∈ allSub) →
      CascadeInv allSub st →
      CascadeInv allSub (refs.foldl (processChild bid) st) := by
  intro refs
  induction refs with
  | nil => intro st _ h; exact h
  | cons r rest ih =>
    intro st hrefs h
    have hrid : r.doc.id ∈ allSub.map (fun d => d.id) :=
      List.mem_map.mpr ⟨r.doc, hrefs r (List.mem_cons_self r rest), rfl⟩
    exact ih (fun e he => hrefs e (List.mem_cons_of_mem r he))
      (processChild_inv hrid h)

theorem processBundle_inv {allSub : List Doc} {bm : BundleMap} {st : CState}
    {bid : String} (hbm : BmRefs bm allSub)
    (h : CascadeInv allSub st) : CascadeInv allSub (processBundle bm st bid) := by
  have hrefs : ∀ ref ∈ (((bm.find? (fun kv => kv.1 = bid)).map Prod.snd).getD []),
      ref.doc ∈ allSub := by
    cases hf : bm.find? (fun kv => kv.1 = bid) with
    | none => simp
    | some kv =>
      intro ref href
      exact hbm kv (List.mem_of_find?_eq_some hf) ref (by simpa [hf] using href)
  exact foldl_processChild_inv hrefs h

theorem foldl_processBundle_inv {allSub : List Doc} {bm : BundleMap}
    (hbm : BmRefs bm allSub) :
    ∀ {bids : List String} {st : CState}, CascadeInv allSub st →
      CascadeInv allSub (bids.foldl (processBundle bm) st) := by
  intro bids
  induction bids with
  | nil => intro st h; exact h
  | cons b rest ih =>
    intro st h
    exact ih (processBundle_inv hbm h)

theorem cascadeLoop_inv {allSub : List Doc} {bm : BundleMap}
    (hbm : BmRefs bm allSub) :
    ∀ {fuel : Nat} {st : CState}, CascadeInv allSub st →
      CascadeInv allSub (cascadeLoop bm fuel st) := by
  intro fuel
  induction fuel with
  | zero => intro st h; exact h
  | succ n ih =>
    intro st h
    unfold cascadeLoop
    by_cases he : st.next = []
    · rw [if_pos he]; exact h
    · rw [if_neg he]
      exact ih (foldl_processBundle_inv hbm h)

theorem cascadeRun_inv {allSub : List Doc} {bm : BundleMap} {rootId : String}
    (hbm : BmRefs bm allSub) :
    CascadeInv allSub (cascadeRun bm allSub rootId) := by
  unfold cascadeRun
  apply cascadeLoop_inv hbm
  refine ⟨?_, ?_, rfl, ?_⟩
  · intro op hop; cases hop
  · simp
  · intro dd hdd
    exact ⟨dd, hdd, rfl, rfl⟩

theorem bmAppend_refs {bm : BundleMap} {allSub : List Doc} {pid : String}
    {ref : DocRef} (hbm : BmRefs bm allSub) (href : ref.doc ∈ allSub) :
    BmRefs (bmAppend bm pid ref) allSub := by
  intro kv hkv r hr
  rcases List.mem_map.mp hkv with ⟨kv0, hkv0, hval⟩
  by_cases hc : kv0.1 = pid
  · rw [← hval] at hr
    simp only [hc, if_pos] at hr
    rcases List.mem_append.mp hr with hr | hr
    · exact hbm kv0 hkv0 r hr
    · rw [List.mem_singleton.mp hr]; exact href
  · rw [← hval] at hr
    simp only [hc, if_neg, if_false] at hr
    exact hbm kv0 hkv0 r hr

theorem addRefs_refs {bm : BundleMap} {allSub : List Doc} {d : Doc}
    (hbm : BmRefs bm allSub) (hd : d ∈ allSub) :
    BmRefs (addRefs bm d) allSub := by
  unfold addRefs
  have : ∀ (pids : List String) (bm0 : BundleMap), BmRefs bm0 allSub →
      BmRefs (pids.foldl (fun bm pid => bmAppend bm pid (buildRef d)) bm0) allSub := by
    intro pids
    induction pids with
    | nil => intro bm0 h; exact h
    | cons p rest ih =>
      intro bm0 h
      exact ih _ (bmAppend_refs h (by simpa [buildRef] using hd))
  exact this _ bm hbm

theorem foldl_addRefs_refs {allSub : List Doc} :
    ∀ {l : List Doc} {bm : BundleMap}, (∀ d ∈ l, d ∈ allSub) →
      BmRefs bm allSub → BmRefs (l.foldl addRefs bm) allSub := by
  intro l
  induction l with
  | nil => intro bm _ h; exact h
  | cons d rest ih =>
    intro bm hl h
    exact ih (fun e he => hl e (List.mem_cons_of_mem d he))
      (addRefs_refs h (hl d (List.mem_cons_self d rest)))

theorem bmRefs_getBundle (s : Store) (rootId : String) :
    BmRefs (_getBundle s rootId).1 (_getBundle s rootId).2 := by
  unfold _getBundle
  apply foldl_addRefs_refs (fun d hd => hd)
  intro kv hkv r hr
  rcases List.mem_map.mp hkv with ⟨k, _, hval⟩
  rw [← hval] at hr
  cases hr

theorem binPosGo_le (cmp : Op → Op → Int) (e : Op) (p : List Op) :
    ∀ (fuel lo hi : Nat), lo ≤ p.length → hi ≤ p.length →
      binPos.go cmp e p fuel lo hi ≤ p.length := by
  intro fuel
  induction fuel with
  | zero => intro lo hi hlo _; exact hlo
  | succ n ih =>
    intro lo hi hlo hhi
    unfold binPos.go
    by_cases h : lo < hi
    · rw [if_pos h]
      by_cases hc : cmp e (p.getD ((lo + hi) / 2) e) < 0
      · rw [if_pos hc]
        exact ih lo ((lo + hi) / 2) hlo (le_trans (by omega) hhi)
      · rw [if_neg hc]
        exact ih ((lo + hi) / 2 + 1) hi (by omega) hhi
    · rw [if_neg h]; exact hlo

theorem binPos_le (cmp : Op → Op → Int) (e : Op) (p : List Op) :
    binPos cmp e p ≤ p.length := by
  unfold binPos
  exact binPosGo_le cmp e p (p.length + 1) 0 p.length (Nat.zero_le _) le_rfl

theorem jsArraySort_foldl_perm (cmp : Op → Op → Int) :
    ∀ (l acc : List Op),
      (l.foldl (fun p e => p.insertIdx (binPos cmp e p) e) acc).Perm (acc ++ l) := by
  intro l
  induction l with
  | nil => intro acc; simp
  | cons e rest ih =>
    intro acc
    have h1 : (acc.insertIdx (binPos cmp e acc) e).Perm (e :: acc) :=
      List.perm_insertIdx e acc (binPos_le cmp e acc)
    have h2 := ih (acc.insertIdx (binPos cmp e acc) e)
    have h3 : ((acc.insertIdx (binPos cmp e acc) e) ++ rest).Perm
        ((e :: acc) ++ rest) := h1.append_right rest
    have h4 : ((e :: acc) ++ rest).Perm (acc ++ (e :: rest)) :=
      List.perm_middle.symm
    exact (h2.trans h3).trans h4

theorem jsArraySort_perm (cmp : Op → Op → Int) (l : List Op) :
    (jsArraySort cmp l).Perm l := by
  simpa using jsArraySort_foldl_perm cmp l []

theorem sortedBundleOps_perm (ops : List Op) :
    (sortedBundleOps ops).Perm (ops.filter (fun o => o.isBundle)) :=
  jsArraySort_perm bundleCmp (ops.filter (fun o => o.isBundle))

theorem ops_mem_of_eq_docId {ops : List Op} {a b : Op}
    (hnd : (ops.map (fun o => o.docId)).Nodup) (ha : a ∈ ops) (hb : b ∈ ops)
    (h : a.docId = b.docId) : a = b := by
  induction ops with
  | nil => cases ha
  | cons x rest ih =>
    rw [List.map_cons, List.nodup_cons] at hnd
    rcases List.mem_cons.mp ha with rfl | ha' <;>
      rcases List.mem_cons.mp hb with rfl | hb'
    · rfl
    · exact absurd (List.mem_map.mpr ⟨b, hb', h.symm⟩) hnd.1
    · exact absurd (List.mem_map.mpr ⟨a, ha', h⟩) hnd.1
    · exact ih hnd.2 ha' hb'

theorem deleteBundledDocs_ok {s : Store} {rootId : String}
    (hids : (s.map (fun d => d.id)).Nodup) (huq : contentUnique s) :
    ∃ s', _deleteBundledDocs s (_getBundle s rootId).1 (_getBundle s rootId).2
        rootId = (.ok (), s') ∧
      (s'.map (fun d => d.id)).Nodup ∧ contentUnique s' ∧
      (∀ e ∈ s, e.id ∉ (_getBundle s rootId).2.map (fun d => d.id) → e ∈ s') := by
  obtain ⟨hsub, hroot, hsubnd⟩ := getBundle_retInv s rootId
  obtain ⟨hopsmem, hopsnd, hdocids, hdoccont⟩ :=
    @cascadeRun_inv (_getBundle s rootId).2 (_getBundle s rootId).1 rootId
      (bmRefs_getBundle s rootId)
  have hexists : ∀ op ∈ (cascadeRun (_getBundle s rootId).1 (_getBundle s rootId).2
        rootId).ops,
      ∃ d0 ∈ s, d0.id = op.docId ∧
        d0.content = ((lookupDoc (cascadeRun (_getBundle s rootId).1
          (_getBundle s rootId).2 rootId).docs op.docId).getD
          (dummyDoc op.docId)).content := by
    intro op hop
    have hinSub : op.docId ∈ (_getBundle s rootId).2.map (fun d => d.id) :=
      hopsmem op hop
    obtain ⟨dd, hdd⟩ := @lookupDoc_exists
      (cascadeRun (_getBundle s rootId).1 (_getBundle s rootId).2
        rootId).docs op.docId (by rw [hdocids]; exact hinSub)
    have hddmem : dd ∈ (cascadeRun (_getBundle s rootId).1 (_getBundle s rootId).2
        rootId).docs := List.mem_of_find?_eq_some hdd
    obtain ⟨a, haSub, haid, hac⟩ := hdoccont dd hddmem
    have hddid : dd.id = op.docId := lookupDoc_id hdd
    refine ⟨a, hsub a haSub, by rw [← haid, hddid], ?_⟩
    rw [hdd]
    simpa using hac.symm
  -- non-bundle phase
  have hnbmem : ∀ op ∈ (cascadeRun (_getBundle s rootId).1 (_getBundle s rootId).2
      rootId).ops.filter (fun o => !o.isBundle),
      op ∈ (cascadeRun (_getBundle s rootId).1 (_getBundle s rootId).2
        rootId).ops := fun op hop => List.mem_of_mem_filter hop
  have hnbnd : (((cascadeRun (_getBundle s rootId).1 (_getBundle s rootId).2
      rootId).ops.filter (fun o => !o.isBundle)).map (fun o => o.docId)).Nodup :=
    List.Sublist.nodup (List.Sublist.map _ (List.filter_sublist _)) hopsnd
  obtain ⟨s1, hrun1, hn1, hu1, hp1⟩ := runOpsCollect_ok hids huq
    (fun op hop => hexists op (hnbmem op hop)) hnbnd
  -- bundle phase
  have hperm := sortedBundleOps_perm (cascadeRun (_getBundle s rootId).1
    (_getBundle s rootId).2 rootId).ops
  have hsortmem : ∀ op ∈ sortedBundleOps (cascadeRun (_getBundle s rootId).1
      (_getBundle s rootId).2 rootId).ops,
      op ∈ (cascadeRun (_getBundle s rootId).1 (_getBundle s rootId).2
        rootId).ops := by
    intro op hop
    exact List.mem_of_mem_filter (hperm.mem_iff.mp hop)
  have hsortnd : ((sortedBundleOps (cascadeRun (_getBundle s rootId).1
      (_getBundle s rootId).2 rootId).ops).map (fun o => o.docId)).Nodup := by
    refine (hperm.map (fun o => o.docId)).nodup_iff.mpr ?_
    exact List.Sublist.nodup (List.Sublist.map _ (List.filter_sublist _)) hopsnd
  have hsortex : ∀ op ∈ sortedBundleOps (cascadeRun (_getBundle s rootId).1
      (_getBundle s rootId).2 rootId).ops,
      ∃ d0 ∈ s1, d0.id = op.docId ∧
        d0.content = ((lookupDoc (cascadeRun (_getBundle s rootId).1
          (_getBundle s rootId).2 rootId).docs op.docId).getD
          (dummyDoc op.docId)).content := by
    intro op hop
    have hopin := hsortmem op hop
    obtain ⟨d0, hd0s, hd0id, hd0c⟩ := hexists op hopin
    have hopbundle : op.isBundle = true := by
      have := hperm.mem_iff.mp hop
      simpa using List.of_mem_filter this
    have hnotnb : d0.id ∉ ((cascadeRun (_getBundle s rootId).1
        (_getBundle s rootId).2 rootId).ops.filter
        (fun o => !o.isBundle)).map (fun o => o.docId) := by
      rw [hd0id]
      intro hmem
      rcases List.mem_map.mp hmem with ⟨o', ho', hoid⟩
      have ho'nb : o'.isBundle = false := by
        simpa using List.of_mem_filter ho'
      have : o' = op := ops_mem_of_eq_docId hopsnd
        (List.mem_of_mem_filter ho') hopin hoid
      rw [this, hopbundle] at ho'nb
      cases ho'nb
    exact ⟨d0, hp1 d0 hd0s hnotnb, hd0id, hd0c⟩
  obtain ⟨s', hrun2, hn', hu', hp2⟩ := runOpsStop_ok hn1 hu1 hsortex hsortnd
  refine ⟨s', ?_, hn', hu', ?_⟩
  · simp only [_deleteBundledDocs]
    rw [hrun1]
    simp only [if_pos rfl]
    exact hrun2
  · intro e hes hnin
    have h1 : e.id ∉ ((cascadeRun (_getBundle s rootId).1 (_getBundle s rootId).2
        rootId).ops.filter (fun o => !o.isBundle)).map (fun o => o.docId) := by
      intro hmem
      rcases List.mem_map.mp hmem with ⟨o', ho', hoid⟩
      exact hnin (by rw [← hoid]; exact hopsmem o' (List.mem_of_mem_filter ho'))
    have h2 : e.id ∉ (sortedBundleOps (cascadeRun (_getBundle s rootId).1
        (_getBundle s rootId).2 rootId).ops).map (fun o => o.docId) := by
      intro hmem
      rcases List.mem_map.mp hmem with ⟨o', ho', hoid⟩
      exact hnin (by rw [← hoid]; exact hopsmem o' (hsortmem o' ho'))
    exact hp2 e (hp1 e hes h1) h2

/-- C5: deleting (without `force`) a credential that exists and is bundled
by other credentials fails with `ConstraintError` and leaves the store
unchanged; the same delete with `force: true` succeeds (something is
deleted).  The store hypotheses are the indexes' invariants: unique EDV doc
ids and a unique document per credential id. -/
theorem c5_delete_bundled_constraint (s : Store) (i : String) (d : Doc)
    (bl : List String)
    (hids : (s.map (fun e => e.id)).Nodup)
    (huq : contentUnique s)
    (hi : i ≠ "")
    (hfind : findByContentId s i = some d)
    (hbb : d.meta.bundledBy = some bl) (hbl : bl ≠ []) :
    (∃ e, deleteVc s (some i) none true false = some (.error e, s) ∧
       e.name = "ConstraintError") ∧
    (∃ r s', deleteVc s (some i) none true true = some (.ok r, s') ∧
       r.deleted = true) := by
  have hds : d ∈ s := List.mem_of_find?_eq_some hfind
  have hdcid : d.content.id = some i := by
    have := List.find?_some hfind
    simpa using this
  have hstr : strTruthy (some i) = true := by simp [strTruthy, hi]
  constructor
  · refine ⟨⟨"ConstraintError",
      "Cannot delete credential; all other credentials that bundle it " ++
      "must be deleted first."⟩, ?_, rfl⟩
    simp [deleteVc, _delete, deleteCore, hstr, hfind, hbb, hbl]
  · by_cases hnil : (_getBundle s i).2 = []
    · have hany : s.any (fun e => e.id = d.id) = true :=
        List.any_eq_true.mpr ⟨d, hds, by simp⟩
      refine ⟨⟨true, some d, false⟩, s.filter (fun e => e.id ≠ d.id), ?_, rfl⟩
      simp [deleteVc, _delete, deleteCore, hstr, hfind, hnil, finishDelete,
        edvDelete, hany]
    · obtain ⟨s', hrun, hn', hu', hp⟩ := @deleteBundledDocs_ok s i hids huq
      obtain ⟨hsub, hrootex, _⟩ := getBundle_retInv s i
      have hdnot : d.id ∉ (_getBundle s i).2.map (fun e => e.id) := by
        intro hmem
        rcases List.mem_map.mp hmem with ⟨a, haSub, haid⟩
        have ha : a = d := mem_of_eq_id hids (hsub a haSub) hds haid
        exact hrootex a haSub (by rw [ha, hdcid])
      have hd' : d ∈ s' := hp d hds hdnot
      have hany : s'.any (fun e => e.id = d.id) = true :=
        List.any_eq_true.mpr ⟨d, hd', by simp⟩
      refine ⟨⟨true, some d, true⟩, s'.filter (fun e => e.id ≠ d.id), ?_, rfl⟩
      simp [deleteVc, _delete, deleteCore, hstr, hfind, hnil, hrun, finishDelete,
        edvDelete, hany]

/-- Witness for C5: deleting the bundled credential `C` without force fails
with `ConstraintError`; with force it succeeds. -/
theorem c5_delete_bundled_constraint_witness :
    (∃ e, deleteVc c5Store (some "C") none true false = some (.error e, c5Store) ∧
       e.name = "ConstraintError") ∧
    (∃ r s', deleteVc c5Store (some "C") none true true = some (.ok r, s') ∧
       r.deleted = true) :=
  c5_delete_bundled_constraint c5Store "C" c5Child ["P"] (by decide)
    (by unfold contentUnique; decide) (by decide) (by decide) (by decide)
    (by decide)

/-! ## Theorems: bundle insert invariant (C6) -/

theorem defaultMutator_content (doc : Doc) (credential : Credential) (meta : Meta) :
    (defaultMutator doc credential meta).content = doc.content := rfl

theorem defaultMutator_id (doc : Doc) (credential : Credential) (meta : Meta) :
    (defaultMutator doc credential meta).id = doc.id := rfl

theorem defaultMutator_bb_mem (doc : Doc) (credential : Credential) (meta : Meta)
    {x : String} (hx : x ∈ bbList meta) :
    x ∈ bbList (defaultMutator doc credential meta).meta := by
  unfold defaultMutator bbList _union
  cases hm : meta.bundledBy with
  | none => simp [bbList, hm] at hx
  | some l2 =>
    rw [bbList, hm] at hx
    simp only [Option.getD_some] at hx
    by_cases hdep : meta.dependent = some false <;>
      cases hd : doc.meta.bundledBy <;>
        simp [hm, hd, hdep, mem_dedupFirst, hx]

theorem defaultMutator_bundle_of_none (doc : Doc) (credential : Credential)
    (meta : Meta) (h : meta.bundle = none) :
    (defaultMutator doc credential meta).meta.bundle = doc.meta.bundle := by
  unfold defaultMutator
  by_cases hdep : meta.dependent = some false <;>
    cases hm : meta.bundledBy <;>
      simp [h, hm, hdep]

theorem resolveIssuer_bundledBy {credential : Credential} {m m' : Meta}
    (h : resolveIssuer credential m = .ok m') : m'.bundledBy = m.bundledBy := by
  unfold resolveIssuer at h
  by_cases hiss : issuerTruthy m.issuer = true
  · rw [if_pos hiss] at h
    cases h; rfl
  · rw [if_neg hiss] at h
    cases hg : _getIssuer credential with
    | error e => rw [hg] at h; cases h
    | ok iss => rw [hg] at h; cases h; rfl

theorem resolveIssuer_dependent {credential : Credential} {m m' : Meta}
    (h : resolveIssuer credential m = .ok m') : m'.dependent = m.dependent := by
  unfold resolveIssuer at h
  by_cases hiss : issuerTruthy m.issuer = true
  · rw [if_pos hiss] at h
    cases h; rfl
  · rw [if_neg hiss] at h
    cases hg : _getIssuer credential with
    | error e => rw [hg] at h; cases h
    | ok iss => rw [hg] at h; cases h; rfl

theorem findByContentId_unique {s : Store} {cid : String} {x : Doc}
    (hx : x ∈ s) (hcid : x.content.id = some cid)
    (huniq : ∀ y ∈ s, y.content.id = some cid → y = x) :
    findByContentId s cid = some x := by
  induction s with
  | nil => cases hx
  | cons y rest ih =>
    by_cases hy : y.content.id = some cid
    · have : y = x := huniq y (List.mem_cons_self y rest) hy
      subst this
      simp [findByContentId, List.find?, hy]
    · have hx' : x ∈ rest := by
        rcases List.mem_cons.mp hx with rfl | hx'
        · exact absurd hcid hy
        · exact hx'
      have := ih hx' (fun z hz hcz => huniq z (List.mem_cons_of_mem y hz) hcz)
      simpa [findByContentId, List.find?, hy] using this

theorem findByContentId_none {s : Store} {cid : String}
    (h : findByContentId s cid = none) : ∀ e ∈ s, e.content.id ≠ some cid := by
  intro e he
  have := List.find?_eq_none.mp h e he
  simpa using this

theorem upsertLoop_fresh {cred : Credential} {meta : Meta} {s : Store} {gen : Nat}
    {tr : List WriteEvent} {c : String}
    (hC : cred.id = some c)
    (hfresh : ∀ e ∈ s, e.content.id ≠ some c)
    (hid : ∀ e ∈ s, e.id ≠ gen) :
    upsertLoop cred meta true 10 true none s gen tr =
      ⟨.ok ⟨gen, cred, meta⟩, s ++ [(⟨gen, cred, meta⟩ : Doc)], gen + 1,
        tr ++ [.updateW ⟨gen, cred, meta⟩]⟩ := by
  have h1 : edvUpdate s ⟨gen, cred, meta⟩ =
      .ok (s ++ [(⟨gen, cred, meta⟩ : Doc)]) := by
    unfold edvUpdate
    have hB : (s.any fun d => decide (d.id = (⟨gen, cred, meta⟩ : Doc).id)) = false := by
      rw [List.any_eq_false]
      intro e he
      simpa using hid e he
    simp [hB]
    intro x hx _ hcid
    exact absurd (hcid.trans hC) (hfresh x hx)
  rw [show (10 : Nat) = 9 + 1 from rfl]
  unfold upsertLoop
  simp [h1]

theorem upsertLoop_existing {cred : Credential} {meta : Meta} {s : Store}
    {gen : Nat} {tr : List WriteEvent} {c : String} {dexist : Doc}
    (hC : cred.id = some c) (hc : c ≠ "")
    (hfind : findByContentId s c = some dexist)
    (hgenid : ∀ e ∈ s, e.id ≠ gen)
    (huniqc : ∀ y ∈ s, y.content.id = some c → y = dexist) :
    upsertLoop cred meta true 10 true none s gen tr =
      ⟨.ok (defaultMutator dexist cred meta),
        s.map (fun e => if e.id = (defaultMutator dexist cred meta).id
          then defaultMutator dexist cred meta else e),
        gen + 1, tr ++ [.updateW (defaultMutator dexist cred meta)]⟩ := by
  have hdmem : dexist ∈ s := List.mem_of_find?_eq_some hfind
  have hdcid : dexist.content.id = some c := by
    have := List.find?_some hfind
    simpa using this
  -- first attempt: the new candidate collides with `dexist`
  have h1 : edvUpdate s (⟨gen, cred, meta⟩ : Doc) =
      .error ⟨"DuplicateError", "Duplicate error."⟩ := by
    unfold edvUpdate
    have hex : ∃ x ∈ s, ¬x.id = gen ∧ x.content.id = some c :=
      ⟨dexist, hdmem, hgenid dexist hdmem, hdcid⟩
    simp [hC, strTruthy, hc, hex]
  -- second attempt: mutate and replace the existing document
  have h2 : edvUpdate s (defaultMutator dexist cred meta) =
      .ok (s.map (fun e => if e.id = (defaultMutator dexist cred meta).id
        then defaultMutator dexist cred meta else e)) := by
    unfold edvUpdate
    have hcid2 : (defaultMutator dexist cred meta).content.id = some c := by
      rw [defaultMutator_content, hdcid]
    have hBex : ∃ x ∈ s, x.id = (defaultMutator dexist cred meta).id :=
      ⟨dexist, hdmem, (defaultMutator_id dexist cred meta).symm⟩
    simp [hBex]
    intro x hx hne hcid
    have hxd : x = dexist := huniqc x hx (by rw [← hcid2]; exact hcid)
    rw [hxd, defaultMutator_id] at hne
    exact absurd rfl hne
  rw [show (10 : Nat) = 9 + 1 from rfl]
  unfold upsertLoop
  rw [if_pos rfl]
  simp only [h1]
  rw [if_pos (by simp)]
  simp only [hC, hfind]
  rw [show (9 : Nat) = 8 + 1 from rfl]
  unfold upsertLoop
  simp [h2]

theorem upsertStore_none_bc {s : Store} {gen : Nat} {cred : Credential}
    {m m' : Meta} {tr : List WriteEvent} {c : String}
    (hC : cred.id = some c) (hri : resolveIssuer cred m = .ok m') :
    upsertStore s gen cred m true none tr =
      upsertLoop cred m' true 10 true none s gen tr := by
  have hne : ¬ cred.id = none := by rw [hC]; simp
  simp only [upsertStore, upsertCore, if_neg hne, List.isEmpty_nil, if_pos rfl,
    if_true]
  rw [hri]
  cases hloop : upsertLoop cred m' true 10 true none s gen tr with
  | mk res store g t =>
    cases res with
    | ok doc => simp [hloop, hC]
    | error e => simp [hloop, hC]

/-- C6: after a successful `insert` of a credential `P` (id `p`) with
`bundleContents = [{credential: C}]` (id `c`), the stored document for `C`
has `p` in its `meta.bundledBy`, the stored document for `P` has
`meta.bundle = true`, and the very first write of the call is the insert of
`P`'s document, before any child write. -/
theorem c6_insert_bundle_invariant (s : Store) (gen : Nat)
    (P C : Credential) (metaP : Meta) (p c : String)
    (res : Doc) (s' : Store) (gen' : Nat) (tr : List WriteEvent)
    (huq : contentUnique s)
    (hgen : ∀ e ∈ s, e.id < gen)
    (hP : P.id = some p) (hp : p ≠ "")
    (hC : C.id = some c) (hc : c ≠ "")
    (hrun : insertVc s gen P metaP (some [BundleEntry.mk C {} none none]) =
      ⟨.ok res, s', gen', tr⟩) :
    (∃ cd, findByContentId s' c = some cd ∧ p ∈ bbList cd.meta) ∧
    (∃ pd, findByContentId s' p = some pd ∧ pd.meta.bundle = some true) ∧
    (∃ pd0 rest, tr = .insertW pd0 :: rest ∧ pd0.content = P ∧
      pd0.meta.bundle = some true) := by
  have hassert : assertBundleContents [BundleEntry.mk C {} none none] = .ok () := by
    simp [assertBundleContents]
  cases hri : resolveIssuer P { metaP with bundle := some true } with
  | error e =>
    simp [insertVc, hassert, hP, strTruthy, hp, hri] at hrun
  | ok mB =>
    by_cases hdup : ∃ x ∈ s, x.content.id = some p
    · simp [insertVc, hassert, hP, strTruthy, hp, hri, hdup] at hrun
    · have hdupA : ∀ x ∈ s, x.content.id ≠ some p := by
        intro x hx hxc; exact hdup ⟨x, hx, hxc⟩
      have hmBbundle : mB.bundle = some true := by
        have := resolveIssuer_bundle hri
        simpa using this
      have hgen1 : ∀ e ∈ s ++ [(⟨gen, P, mB⟩ : Doc)], e.id ≠ gen + 1 := by
        intro e he
        rcases List.mem_append.mp he with h | h
        · exact Nat.ne_of_lt (Nat.lt_succ_of_lt (hgen e h))
        · simp at h
          rw [h]
          show gen ≠ gen + 1
          omega
      cases hric : resolveIssuer C (⟨none, none, none, some [p], some true⟩ : Meta) with
      | error e2 =>
        simp [insertVc, hassert, hP, strTruthy, hp, hri, hdup, addBundleContents,
          upsertStore, upsertCore, hC, hric, dedupFirst, dedupFirstGo, bbList,
          setAdd, Except.map] at hrun
      | ok mC =>
        have hmCbb : mC.bundledBy = some [p] := by
          have := resolveIssuer_bundledBy hric
          simpa using this
        have hmCbundle : mC.bundle = none := by
          have := resolveIssuer_bundle hric
          simpa using this
        have hbC : p ∈ bbList mC := by
          rw [bbList, hmCbb]
          simp
        cases hcex : findByContentId (s ++ [(⟨gen, P, mB⟩ : Doc)]) c with
        | none =>
          have hfreshC := findByContentId_none hcex
          have hloop := @upsertLoop_fresh C mC (s ++ [⟨gen, P, mB⟩]) (gen + 1)
            [.insertW ⟨gen, P, mB⟩] c hC hfreshC hgen1
          have hup := (upsertStore_none_bc hC hric).trans hloop
          simp [insertVc, hassert, hP, strTruthy, hp, hri, hdup, addBundleContents,
            dedupFirst, dedupFirstGo, bbList, setAdd, hup, Except.map] at hrun
          obtain ⟨h1, h2, h3, h4⟩ := hrun
          have hpc : p ≠ c := by
            intro hpc
            exact hfreshC ⟨gen, P, mB⟩ (by simp) (by simp [hP, hpc])
          refine ⟨⟨⟨gen + 1, C, mC⟩, ?_, hbC⟩, ⟨⟨gen, P, mB⟩, ?_, hmBbundle⟩, ?_⟩
          · rw [← h2]
            apply findByContentId_unique (by simp) (by simp [hC])
            intro y hy hyc
            have hy' : y ∈ s ∨ y = ⟨gen, P, mB⟩ ∨ y = ⟨gen + 1, C, mC⟩ := by
              simpa using hy
            rcases hy' with hys | hy1 | hy2
            · exact absurd hyc (hfreshC y (by simp [hys]))
            · exact absurd hyc (hfreshC y (by simp [hy1]))
            · exact hy2
          · rw [← h2]
            apply findByContentId_unique (by simp) (by simp [hP])
            intro y hy hyc
            have hy' : y ∈ s ∨ y = ⟨gen, P, mB⟩ ∨ y = ⟨gen + 1, C, mC⟩ := by
              simpa using hy
            rcases hy' with hys | hy1 | hy2
            · exact absurd hyc (hdupA y hys)
            · exact hy1
            · exfalso
              rw [hy2] at hyc
              simp [hC] at hyc
              exact hpc hyc.symm
          · exact ⟨⟨gen, P, mB⟩, [.updateW ⟨gen + 1, C, mC⟩], by rw [← h4],
              rfl, hmBbundle⟩
        | some dexist =>
          have hdmem : dexist ∈ s ++ [(⟨gen, P, mB⟩ : Doc)] :=
            List.mem_of_find?_eq_some hcex
          have hdcid : dexist.content.id = some c := by
            have := List.find?_some hcex
            simpa using this
          have huniq1 : ∀ y ∈ s ++ [(⟨gen, P, mB⟩ : Doc)],
              y.content.id = some c → y = dexist := by
            intro y hy hyc
            rcases List.mem_append.mp hy with hys | hyp
            · rcases List.mem_append.mp hdmem with hds | hdp
              · exact huq y hys dexist hds (by rw [hyc, hdcid])
                  (by rw [hyc]; simp [strTruthy, hc])
              · exfalso
                have hd' : dexist = ⟨gen, P, mB⟩ := by simpa using hdp
                have hpc : p = c := by
                  rw [hd'] at hdcid
                  simpa [hP] using hdcid
                exact hdupA y hys (by rw [hyc, hpc])
            · have hy' : y = ⟨gen, P, mB⟩ := by simpa using hyp
              rcases List.mem_append.mp hdmem with hds | hdp
              · exfalso
                have hpc : p = c := by
                  rw [hy'] at hyc
                  simpa [hP] using hyc
                exact hdupA dexist hds (by rw [hdcid, hpc])
              · rw [hy']
                symm
                simpa using hdp
          have hloop := @upsertLoop_existing C mC (s ++ [⟨gen, P, mB⟩]) (gen + 1)
            [.insertW ⟨gen, P, mB⟩] c dexist hC hc hcex hgen1 huniq1
          have hup := (upsertStore_none_bc hC hric).trans hloop
          simp [insertVc, hassert, hP, strTruthy, hp, hri, hdup, addBundleContents,
            dedupFirst, dedupFirstGo, bbList, setAdd, hup, Except.map] at hrun
          obtain ⟨h1, h2, h3, h4⟩ := hrun
          subst h2 h3 h4
          set d2 := defaultMutator dexist C mC with hd2
          have hd2id : d2.id = dexist.id := defaultMutator_id dexist C mC
          have hd2cid : d2.content.id = some c := by
            rw [hd2, defaultMutator_content]
            exact hdcid
          have hbb2 : p ∈ bbList d2.meta := defaultMutator_bb_mem dexist C mC hbC
          set S2 := List.map (fun e => if e.id = d2.id then d2 else e) s ++
            [if gen = d2.id then d2 else (⟨gen, P, mB⟩ : Doc)] with hS2
          have hmem2 : d2 ∈ S2 := by
            rw [hS2]
            rcases List.mem_append.mp hdmem with hds | hdp
            · refine List.mem_append.mpr (Or.inl ?_)
              refine List.mem_map.mpr ⟨dexist, hds, ?_⟩
              rw [if_pos hd2id.symm]
            · have hd' : dexist = ⟨gen, P, mB⟩ := by simpa using hdp
              have hg2 : gen = d2.id := by rw [hd2id, hd']
              refine List.mem_append.mpr (Or.inr ?_)
              rw [if_pos hg2]
              exact List.mem_singleton.mpr rfl
          have huniq2 : ∀ y ∈ S2, y.content.id = some c → y = d2 := by
            rw [hS2]
            intro y hy hyc
            rcases List.mem_append.mp hy with hym | hyl
            · obtain ⟨y0, hy0, hfy⟩ := List.mem_map.mp hym
              by_cases hid0 : y0.id = d2.id
              · rw [← hfy]
                simp [hid0]
              · have hyy0 : y = y0 := by rw [← hfy]; simp [hid0]
                rw [hyy0] at hyc
                have hyd : y0 = dexist :=
                  huniq1 y0 (List.mem_append.mpr (Or.inl hy0)) hyc
                exact absurd (by rw [hyd, hd2id]) hid0
            · by_cases hgidq : gen = d2.id
              · rw [if_pos hgidq] at hyl
                simpa using hyl
              · rw [if_neg hgidq] at hyl
                have hy' : y = ⟨gen, P, mB⟩ := by simpa using hyl
                exfalso
                rw [hy'] at hyc
                have hpc : p = c := by simpa [hP] using hyc
                rcases List.mem_append.mp hdmem with hds | hdp
                · exact hdupA dexist hds (by rw [hdcid, hpc])
                · have hd' : dexist = ⟨gen, P, mB⟩ := by simpa using hdp
                  exact hgidq (by rw [hd2id, hd'])
          have hfind2 : findByContentId S2 c = some d2 :=
            findByContentId_unique hmem2 hd2cid huniq2
          refine ⟨⟨d2, hfind2, hbb2⟩, ?_, ?_⟩
          · by_cases hpc : p = c
            · refine ⟨d2, by rw [hpc]; exact hfind2, ?_⟩
              have hdpd : dexist = ⟨gen, P, mB⟩ := by
                rcases List.mem_append.mp hdmem with hds | hdp
                · exact absurd (show dexist.content.id = some p by
                    rw [hdcid, ← hpc]) (hdupA dexist hds)
                · simpa using hdp
              rw [hd2, defaultMutator_bundle_of_none dexist C mC hmCbundle, hdpd]
              exact hmBbundle
            · have hdne : dexist ∈ s := by
                rcases List.mem_append.mp hdmem with hds | hdp
                · exact hds
                · exfalso
                  have hd' : dexist = ⟨gen, P, mB⟩ := by simpa using hdp
                  apply hpc
                  have hx := hdcid
                  rw [hd'] at hx
                  simpa [hP] using hx
              have hdlt : dexist.id < gen := hgen dexist hdne
              have hgid : ¬ gen = d2.id := by
                rw [hd2id]
                omega
              have hpmem : (⟨gen, P, mB⟩ : Doc) ∈ S2 := by
                rw [hS2]
                refine List.mem_append.mpr (Or.inr ?_)
                rw [if_neg hgid]
                exact List.mem_singleton.mpr rfl
              have huq2p : ∀ y ∈ S2, y.content.id = some p →
                  y = (⟨gen, P, mB⟩ : Doc) := by
                rw [hS2]
                intro y hy hyc
                rcases List.mem_append.mp hy with hym | hyl
                · obtain ⟨y0, hy0, hfy⟩ := List.mem_map.mp hym
                  by_cases hid0 : y0.id = d2.id
                  · exfalso
                    have hyd2 : y = d2 := by rw [← hfy]; simp [hid0]
                    rw [hyd2, hd2cid] at hyc
                    have hcp : c = p := by simpa using hyc
                    exact hpc hcp.symm
                  · have hyy0 : y = y0 := by rw [← hfy]; simp [hid0]
                    rw [hyy0] at hyc
                    exact absurd hyc (hdupA y0 hy0)
                · rw [if_neg hgid] at hyl
                  simpa using hyl
              have hfindp : findByContentId S2 p = some ⟨gen, P, mB⟩ :=
                findByContentId_unique hpmem (by simp [hP]) huq2p
              exact ⟨⟨gen, P, mB⟩, hfindp, hmBbundle⟩
          · exact ⟨⟨gen, P, mB⟩, [.updateW d2], rfl, rfl, hmBbundle⟩

theorem c6RunEval :
    insertVc [] 0 c6P {} (some [BundleEntry.mk c6C {} none none]) =
      ⟨.ok c6Pdoc, [c6Pdoc, c6Cdoc], 2, [.insertW c6Pdoc, .updateW c6Cdoc]⟩ := by
  have hloop : upsertLoop c6C c6mC true 10 true none [c6Pdoc] 1 [.insertW c6Pdoc] =
      ⟨.ok ⟨1, c6C, c6mC⟩, [c6Pdoc] ++ [(⟨1, c6C, c6mC⟩ : Doc)], 2,
        [.insertW c6Pdoc] ++ [.updateW ⟨1, c6C, c6mC⟩]⟩ :=
    upsertLoop_fresh (c := "C") rfl (by decide) (by decide)
  have hric : resolveIssuer c6C (⟨none, none, none, some ["P"], some true⟩ : Meta) =
      .ok c6mC := rfl
  have hup := (upsertStore_none_bc (c := "C") rfl hric).trans hloop
  simp only [c6Pdoc, c6Cdoc, c6P, c6C, c6mB, c6mC] at hup ⊢
  simp [insertVc, addBundleContents, assertBundleContents, strTruthy, resolveIssuer,
    issuerTruthy, _getIssuer, dedupFirst, dedupFirstGo, bbList, setAdd, hup,
    Except.map]

theorem c6_insert_bundle_invariant_witness :
    (∃ cd, findByContentId [c6Pdoc, c6Cdoc] "C" = some cd ∧ "P" ∈ bbList cd.meta) ∧
    (∃ pd, findByContentId [c6Pdoc, c6Cdoc] "P" = some pd ∧
      pd.meta.bundle = some true) ∧
    (∃ pd0 rest,
      [WriteEvent.insertW c6Pdoc, WriteEvent.updateW c6Cdoc] =
        WriteEvent.insertW pd0 :: rest ∧ pd0.content = c6P ∧
      pd0.meta.bundle = some true) :=
  c6_insert_bundle_invariant [] 0 c6P c6C {} "P" "C" c6Pdoc [c6Pdoc, c6Cdoc] 2
    [.insertW c6Pdoc, .updateW c6Cdoc]
    (by intro a ha; exact absurd ha (List.not_mem_nil a))
    (by intro e he; exact absurd he (List.not_mem_nil e))
    rfl (by decide) rfl (by decide) c6RunEval
